import Mathlib

/-!
# Emotion-expression mapper and TTS playback engine

A shallow embedding of `live-2d/js/ui/emotion-expression-mapper.js` and of the
reveal loop of `live-2d/js/voice/tts-playback-engine.js`.

* A JavaScript string is the list of its UTF-16 code units (`JSString`), so
  `length`, `substring` and the indices produced by the regular expression are
  counted in code units, as in the source.
* `expressionConfig` is `null` or a record; the record is the list of its own
  entries in iteration order, each bound to an array of strings. A property
  lookup reads the own entries and then the members that a record inherits from
  `Object.prototype` (`configGet`).
* `Math.random()` is a parameter `r`; the product `r * n` is rounded to the
  nearest double before `Math.floor` (`roundDouble`, `randomIndex`).
* Calls that reach the rendering model or the event bus are recorded as a list
  of `Effect`s, in call order.
-/

namespace EmotionExpressionMapper

/-! ## Strings -/

/-- A JavaScript string: its UTF-16 code units. -/
abbrev JSString := List Nat

/-- UTF-16 code units of one code point. -/
def utf16Char (c : Char) : List Nat :=
  if c.toNat < 65536 then [c.toNat]
  else [55296 + (c.toNat - 65536) / 1024, 56320 + (c.toNat - 65536) % 1024]

/-- UTF-16 code units of a string literal. -/
def utf16 (s : String) : JSString :=
  s.toList.flatMap utf16Char

/-- Code unit of `<`. -/
def chLt : Nat := 60

/-- Code unit of `>`. -/
def chGt : Nat := 62

/-- The call `s.substring(start, end)` on in-range or out-of-range natural indices:
the arguments are clamped to the length and swapped when `start > end`. -/
def substring (s : JSString) (start stop : Nat) : JSString :=
  (s.take (max start stop)).drop (min start stop)

/-- The call `s.substring(start)`. -/
def substringFrom (s : JSString) (start : Nat) : JSString :=
  s.drop start

/-! ## Tag parser -/

/-- One element pushed by `parseEmotionTagsWithPosition`. -/
structure EmotionTag where
  emotion : JSString
  startIndex : Nat
  endIndex : Nat
  fullTag : JSString
  deriving DecidableEq, Repr

/-- The pattern `<([^>]+)>` tried at the head of `s`; the result is capture
group 1. The greedy class `[^>]+` takes the whole run of code units other than
`>`; a shorter run is followed by a code unit of the run, never by `>`, so
backtracking cannot produce another match. -/
def matchTagHere : JSString → Option JSString
  | [] => none
  | c :: rest =>
    if c = chLt then
      match rest.span (fun x => x != chGt) with
      | (_, []) => none
      | (label, _ :: _) => if label.isEmpty then none else some label
    else none

/-- Leftmost match in the suffix `s` of the text that starts at index `i`:
the result is `(match.index, match[1])`. -/
def findMatch : Nat → JSString → Option (Nat × JSString)
  | _, [] => none
  | i, c :: rest =>
    match matchTagHere (c :: rest) with
    | some label => some (i, label)
    | none => findMatch (i + 1) rest

/-- The call `pattern.exec(text)` of the global pattern with the given `lastIndex`. -/
def exec (text : JSString) (lastIndex : Nat) : Option (Nat × JSString) :=
  if text.length < lastIndex then none
  else findMatch lastIndex (text.drop lastIndex)

/-- The `while ((match = pattern.exec(text)) !== null)` loop; `fuel` bounds the
number of iterations and `lastIndex` is the pattern's `lastIndex`. -/
def parseLoop (text : JSString) : Nat → Nat → List EmotionTag
  | 0, _ => []
  | fuel + 1, lastIndex =>
    match exec text lastIndex with
    | none => []
    | some (index, label) =>
      let matchLength := label.length + 2
      { emotion := label
        startIndex := index
        endIndex := index + matchLength
        fullTag := substring text index (index + matchLength) }
        :: parseLoop text fuel (index + matchLength)

/-- The method `parseEmotionTagsWithPosition(text)`. Every match is at least three code
units long, so `text.length + 1` iterations are never exhausted
(`parseLoop_fuel`). -/
def parseEmotionTagsWithPosition (text : JSString) : List EmotionTag :=
  parseLoop text (text.length + 1) 0

/-! ## Configuration and markers -/

/-- The record `expressionConfig`: own entries in iteration order. -/
abbrev ExpressionConfig := List (JSString × List JSString)

/-- The fields of the mapper that the modelled methods read. -/
structure Mapper where
  expressionConfig : Option ExpressionConfig
  defaultExpression : JSString
  deriving DecidableEq, Repr

/-- A value read under a key of `expressionConfig`: the array of an own entry, or
a member inherited from `Object.prototype`, which is a function with its `length`
or, for `__proto__`, an object that has no `length`. -/
inductive ConfigValue where
  | files (files : List JSString)
  | inherited (length : Option Nat)
  deriving DecidableEq, Repr

/-- The members that a record inherits from `Object.prototype`, each function
with its `length`. -/
def inheritedMembers : List (JSString × Option Nat) :=
  [(utf16 "constructor", some 1), (utf16 "__defineGetter__", some 2),
   (utf16 "__defineSetter__", some 2), (utf16 "hasOwnProperty", some 1),
   (utf16 "__lookupGetter__", some 1), (utf16 "__lookupSetter__", some 1),
   (utf16 "isPrototypeOf", some 1), (utf16 "propertyIsEnumerable", some 1),
   (utf16 "toString", some 0), (utf16 "valueOf", some 0), (utf16 "__proto__", none),
   (utf16 "toLocaleString", some 0)]

/-- The value of `this.expressionConfig && this.expressionConfig[key]` when it is
truthy, `none` when it is falsy: the array of the own entry `key` (empty or not),
else the member of that name inherited from `Object.prototype`. -/
def configGet (cfg : Option ExpressionConfig) (key : JSString) : Option ConfigValue :=
  match cfg with
  | none => none
  | some c =>
    match c.lookup key with
    | some files => some (ConfigValue.files files)
    | none => (inheritedMembers.lookup key).map ConfigValue.inherited

/-- One element of `emotionMarkers`; `expressionFiles` is whatever the lookup of
the label gave. -/
structure EmotionMarker where
  position : Int
  emotion : JSString
  expressionFiles : ConfigValue
  deriving DecidableEq, Repr

/-- The result object of `prepareTextForTTS`. -/
structure PreparedText where
  text : JSString
  emotionMarkers : List EmotionMarker
  deriving DecidableEq, Repr

/-- The tag-removal loop of `prepareTextForTTS`: `i` runs from the last tag down
to the first, each step cutting `[startIndex, endIndex)` out of `purifiedText`. -/
def removeTags (text : JSString) (emotionTags : List EmotionTag) : JSString :=
  emotionTags.foldr
    (fun tag purifiedText =>
      substring purifiedText 0 tag.startIndex ++ substringFrom purifiedText tag.endIndex)
    text

/-- The marker loop of `prepareTextForTTS`, from the running `offset`. -/
def markerLoop (cfg : Option ExpressionConfig) : List EmotionTag → Int → List EmotionMarker
  | [], _ => []
  | tag :: rest, offset =>
    let adjustedPosition : Int := (tag.startIndex : Int) - offset
    let offset' : Int := offset + ((tag.endIndex : Int) - (tag.startIndex : Int))
    match configGet cfg tag.emotion with
    | some files =>
      { position := adjustedPosition, emotion := tag.emotion, expressionFiles := files }
        :: markerLoop cfg rest offset'
    | none => markerLoop cfg rest offset'

/-- The method `prepareTextForTTS(text)`. -/
def prepareTextForTTS (m : Mapper) (text : JSString) : PreparedText :=
  let emotionTags := parseEmotionTagsWithPosition text
  if emotionTags.length = 0 then
    { text := text, emotionMarkers := [] }
  else
    { text := removeTags text emotionTags
      emotionMarkers := markerLoop m.expressionConfig emotionTags 0 }

/-! ## Expression resolver -/

/-- The expression `s.split('/').pop()`: the part of `s` after its last `/`. -/
def lastPathSegment (s : JSString) : JSString :=
  (s.reverse.takeWhile (fun c => c != 47)).reverse

/-- The call `s.replace(pattern, replacement)` with a string pattern: the first
occurrence is replaced. -/
def replaceFirst (pattern replacement : JSString) : JSString → JSString
  | [] => if pattern.isEmpty then replacement else []
  | c :: cs =>
    if pattern.isPrefixOf (c :: cs) then replacement ++ (c :: cs).drop pattern.length
    else c :: replaceFirst pattern replacement cs

/-- The call `s.startsWith(pattern)`. -/
def startsWith (s pattern : JSString) : Bool :=
  pattern.isPrefixOf s

/-- White space and line terminators skipped by `parseInt`. -/
def isWhiteSpace (c : Nat) : Bool :=
  c = 9 || c = 10 || c = 11 || c = 12 || c = 13 || c = 32 || c = 160 || c = 5760 ||
    (decide (8192 ≤ c) && decide (c ≤ 8202)) || c = 8232 || c = 8233 || c = 8239 ||
    c = 8287 || c = 12288 || c = 65279

/-- Decimal digit. -/
def isDecDigit (c : Nat) : Bool :=
  decide (48 ≤ c) && decide (c ≤ 57)

/-- Hexadecimal digit. -/
def isHexDigit (c : Nat) : Bool :=
  isDecDigit c || (decide (65 ≤ c) && decide (c ≤ 70)) || (decide (97 ≤ c) && decide (c ≤ 102))

/-- The test `isNaN(parseInt(s))`: after white space and an optional sign, a `0x`/`0X`
prefix selects radix 16, and the result is `NaN` when no digit of the radix
follows. -/
def parseIntIsNaN (s : JSString) : Bool :=
  let s1 := s.dropWhile isWhiteSpace
  let s2 := match s1 with
    | [] => []
    | c :: rest => if c = 43 ∨ c = 45 then rest else c :: rest
  match s2 with
  | [] => true
  | c :: rest =>
    if c = 48 then
      match rest with
      | [] => false
      | x :: rest' =>
        if x = 120 ∨ x = 88 then
          match rest' with
          | [] => true
          | d :: _ => !isHexDigit d
        else false
    else !isDecDigit c

/-- The method `extractExpressionNameFromPath(expressionFile)`; `none` is `undefined`, on
which `split` throws and the `catch` branch answers. -/
def extractExpressionNameFromPath (expressionFile : Option JSString) : JSString :=
  match expressionFile with
  | none => utf16 "未知表情"
  | some file =>
    let fileName := lastPathSegment file
    let expressionName := replaceFirst (utf16 ".exp3.json") [] fileName
    if startsWith expressionName (utf16 "expression") then
      let num := replaceFirst (utf16 "expression") [] expressionName
      if !parseIntIsNaN num then utf16 "表情" ++ num else expressionName
    else expressionName

/-- Calls that leave the mapper, in call order: `playExpressionFile(file)` (which
forwards the file's base name to the rendering model) and the
`EXPRESSION_TRIGGERED` event. A file that is `undefined` is `none`; for it
`playExpressionFile` catches its own `TypeError` and forwards nothing. -/
inductive Effect where
  | playExpressionFile (file : Option JSString)
  | expressionTriggered (emotion expression : JSString) (file : Option JSString)
  deriving DecidableEq, Repr

/-- The argument of `playExpressionFile` in a step of `playDefaultExpression` that
reads `key`: `files[0]` when the lookup is truthy and `files.length > 0`, which is
a file for a non-empty own array and `undefined` (`some none`) for an inherited
function of positive `length`; `none` when the step does not play. -/
def firstBound (cfg : Option ExpressionConfig) (key : JSString) : Option (Option JSString) :=
  match configGet cfg key with
  | some (ConfigValue.files (file :: _)) => some (some file)
  | some (ConfigValue.inherited (some (_ + 1))) => some none
  | _ => none

/-- The emotion-category labels 开心, 生气, 难过, 惊讶, 害羞, 俏皮. -/
def reservedLabels : List JSString :=
  [utf16 "开心", utf16 "生气", utf16 "难过", utf16 "惊讶", utf16 "害羞", utf16 "俏皮"]

/-- The last step of `playDefaultExpression`: the `for ... of Object.entries`
loop over the own entries; the result is the name logged and the file played. -/
def firstOtherExpression : ExpressionConfig → Option (JSString × JSString)
  | [] => none
  | (name, files) :: rest =>
    match files with
    | [] => firstOtherExpression rest
    | file :: _ =>
      if name ≠ utf16 "开心" ∧ name ≠ utf16 "生气" ∧ name ≠ utf16 "难过" ∧
          name ≠ utf16 "惊讶" ∧ name ≠ utf16 "害羞" ∧ name ≠ utf16 "俏皮" ∧
          ¬ startsWith name (utf16 "表情") then
        some (name, file)
      else firstOtherExpression rest

/-- The decision of `playDefaultExpression`: the key whose file is played and
the argument given to `playExpressionFile` (`none` is `undefined`), or `none`
when the method only warns. -/
def defaultExpressionChoice (m : Mapper) : Option (JSString × Option JSString) :=
  match (if m.defaultExpression.isEmpty then none
         else firstBound m.expressionConfig m.defaultExpression) with
  | some file => some (m.defaultExpression, file)
  | none =>
    match firstBound m.expressionConfig (utf16 "表情1") with
    | some file => some (utf16 "表情1", file)
    | none =>
      match firstBound m.expressionConfig (utf16 "默认表情") with
      | some file => some (utf16 "默认表情", file)
      | none =>
        match m.expressionConfig with
        | none => none
        | some cfg => (firstOtherExpression cfg).map (fun entry => (entry.1, some entry.2))

/-- The method `playDefaultExpression()`. -/
def playDefaultExpression (m : Mapper) : List Effect :=
  match defaultExpressionChoice m with
  | some (_, file) => [Effect.playExpressionFile file]
  | none => []

/-- Rounding of a rational to the nearest integer, a tie going to the even one. -/
def roundHalfEven (q : ℚ) : Int :=
  if q - (⌊q⌋ : ℚ) < 1 / 2 then ⌊q⌋
  else if 1 / 2 < q - (⌊q⌋ : ℚ) then ⌊q⌋ + 1
  else if ⌊q⌋ % 2 = 0 then ⌊q⌋ else ⌊q⌋ + 1

/-- The double nearest to the real number `x`, a tie going to the even
significand: 53 significant bits, the spacing never below that of the
subnormals, `2^-1074`. Overflow to infinity is not modelled. -/
def roundDouble (x : ℚ) : ℚ :=
  if x = 0 then 0
  else (roundHalfEven (x / (2 : ℚ) ^ max (Int.log 2 |x| - 52) (-1074)) : ℚ) *
    (2 : ℚ) ^ max (Int.log 2 |x| - 52) (-1074)

/-- The index `Math.floor(r * n)` for the outcome `r` of `Math.random()`: the
product is the double nearest to the exact product. -/
def randomIndex (r : ℚ) (n : Nat) : Int :=
  ⌊roundDouble (r * (n : ℚ))⌋

/-- The element `array[index]` for an integer index; `none` is `undefined`. -/
def arrayGet (array : List JSString) (index : Int) : Option JSString :=
  if index < 0 then none else array[index.toNat]?

/-- The method `triggerExpressionByEmotion(emotion)` with `r` the outcome of
`Math.random()`: the value returned (`none` is `null`) and the calls made. The
bound branch is taken when the lookup is truthy and its `length` is positive: for
a non-empty own array, and for an inherited function of positive `length`, every
index of which is `undefined`. -/
def triggerExpressionByEmotion (m : Mapper) (r : ℚ) (emotion : JSString) :
    Option JSString × List Effect :=
  match m.expressionConfig with
  | none => (none, playDefaultExpression m)
  | some cfg =>
    match configGet (some cfg) emotion with
    | some (ConfigValue.files (file :: files)) =>
      let expressionFiles := file :: files
      let selectedFile := arrayGet expressionFiles (randomIndex r expressionFiles.length)
      let expressionName := extractExpressionNameFromPath selectedFile
      (some expressionName,
        [Effect.playExpressionFile selectedFile,
         Effect.expressionTriggered emotion expressionName selectedFile])
    | some (ConfigValue.inherited (some (_ + 1))) =>
      let selectedFile : Option JSString := none
      let expressionName := extractExpressionNameFromPath selectedFile
      (some expressionName,
        [Effect.playExpressionFile selectedFile,
         Effect.expressionTriggered emotion expressionName selectedFile])
    | _ => (none, playDefaultExpression m)

/-! ## Reveal tick -/

/-- The trigger window test `position >= marker.position && position <=
marker.position + 2`. -/
def inWindow (position : Int) (marker : EmotionMarker) : Bool :=
  decide (position ≥ marker.position) && decide (position ≤ marker.position + 2)

/-- The reverse scan `for (let i = length - 1; i >= 0; i--)` entered with
`i + 1 = n`: the index and the marker of the first hit. -/
def windowScan (position : Int) (markers : List EmotionMarker) : Nat → Option (Nat × EmotionMarker)
  | 0 => none
  | i + 1 =>
    match markers[i]? with
    | some marker =>
      if inWindow position marker then some (i, marker) else windowScan position markers i
    | none => windowScan position markers i

/-- What one call of `triggerEmotionByTextPosition` does: `fired` lists the
markers whose emotion is passed to `triggerExpressionByEmotion`, in call order,
and `markers` is the array afterwards. -/
structure TriggerResult where
  fired : List EmotionMarker
  markers : List EmotionMarker
  deriving DecidableEq, Repr

/-- The window check of `triggerEmotionByTextPosition`: the first hit of the
reverse scan fires and is spliced out. -/
def windowCheck (position : Int) (markers : List EmotionMarker) : TriggerResult :=
  match windowScan position markers markers.length with
  | some (i, marker) => { fired := [marker], markers := markers.eraseIdx i }
  | none => { fired := [], markers := markers }

/-- The method `triggerEmotionByTextPosition(position, textLength, expressionMarkers)`. -/
def triggerEmotionByTextPosition (position textLength : Int)
    (expressionMarkers : List EmotionMarker) : TriggerResult :=
  if expressionMarkers.length = 0 then { fired := [], markers := expressionMarkers }
  else
    let afterWindow := windowCheck position expressionMarkers
    if position ≥ textLength - 1 ∧ afterWindow.markers.length > 0 then
      { fired := afterWindow.fired ++ afterWindow.markers, markers := [] }
    else afterWindow

/-- The frames of `animateText` on which a character is revealed, at most
`ticks` of them, from `charDisplayIndex`: each increments the index and, when the
marker array is not empty, calls `triggerEmotionByTextPosition`. Frames on which
no character is due do not touch the markers. -/
def animateText (segmentLength : Nat) : Nat → Nat → List EmotionMarker → TriggerResult
  | 0, _, expressionMarkers => { fired := [], markers := expressionMarkers }
  | ticks + 1, charDisplayIndex, expressionMarkers =>
    if charDisplayIndex < segmentLength then
      let step :=
        if expressionMarkers.length > 0 then
          triggerEmotionByTextPosition ((charDisplayIndex + 1 : Nat) : Int) (segmentLength : Int)
            expressionMarkers
        else { fired := [], markers := expressionMarkers }
      let rest := animateText segmentLength ticks (charDisplayIndex + 1) step.markers
      { fired := step.fired ++ rest.fired, markers := rest.markers }
    else { fired := [], markers := expressionMarkers }

/-- A reveal of one segment in `playAudio` that runs to its end: the text is
prepared by the expression mapper and revealed from index 0; `segmentLength`
frames reveal every character (`animateText_fuel`). A reveal that `onended` or
`stop` cuts short runs fewer frames and is `animateText` with a smaller number
of ticks. -/
def revealSegment (m : Mapper) (segmentText : JSString) : TriggerResult :=
  let exprInfo := prepareTextForTTS m segmentText
  animateText exprInfo.text.length exprInfo.text.length 0 exprInfo.emotionMarkers

/-! ### Specification side of the tag parser -/

/-- Index `i` of the original text lies inside one of the tags. -/
def inTag (tags : List EmotionTag) (i : Nat) : Bool :=
  tags.any (fun t => decide (t.startIndex ≤ i) && decide (i < t.endIndex))

/-- Specification of stripping: the code units of `s` (which starts at index `i`
of the original text) whose index lies in no tag, in their original order. -/
def keepOutside (tags : List EmotionTag) : Nat → JSString → JSString
  | _, [] => []
  | i, c :: cs =>
    if inTag tags i then keepOutside tags (i + 1) cs else c :: keepOutside tags (i + 1) cs

/-- Length of a tag in the original text. -/
def tagLength (t : EmotionTag) : Nat := t.endIndex - t.startIndex

/-- Sum of the lengths of the tags. -/
def tagLengthSum (tags : List EmotionTag) : Nat := (tags.map tagLength).sum

/-- The tags are matches of `<` + one or more code units other than `>` + `>` in
`text`, listed left to right from index `k` on without overlap. -/
def TagsFrom (text : JSString) : Nat → List EmotionTag → Prop
  | _, [] => True
  | k, t :: ts =>
    k ≤ t.startIndex ∧ t.endIndex = t.startIndex + (t.emotion.length + 2) ∧
    t.endIndex ≤ text.length ∧ t.emotion ≠ [] ∧ chGt ∉ t.emotion ∧
    t.fullTag = chLt :: (t.emotion ++ [chGt]) ∧
    (text.drop t.startIndex).take (t.emotion.length + 2) = t.fullTag ∧
    TagsFrom text t.endIndex ts

/-- The spans `[startIndex, endIndex)` of the tags lie left to right, without
overlap, between index `k` and index `n`. -/
def SpansFrom : Nat → List EmotionTag → Nat → Prop
  | k, [], n => k ≤ n
  | k, t :: ts, n => k ≤ t.startIndex ∧ t.startIndex ≤ t.endIndex ∧ SpansFrom t.endIndex ts n

/-- Specification of the marker of the `k`-th tag: none when the lookup of the
label is falsy, else the tag's start offset minus the total length of the tags
before it, with the label and the value that the lookup gave. -/
def specMarkerAt (cfg : Option ExpressionConfig) (tags : List EmotionTag) (k : Nat) :
    Option EmotionMarker :=
  match tags[k]? with
  | none => none
  | some t =>
    (configGet cfg t.emotion).map fun files =>
      { position := (t.startIndex : Int) - (tagLengthSum (tags.take k) : Int)
        emotion := t.emotion
        expressionFiles := files }

/-- Specification of the marker list: the tags whose label has a truthy lookup
in the configuration, in order of appearance, the `k`-th tag placed at its start
offset minus the total length of the tags before it. -/
def specMarkers (cfg : Option ExpressionConfig) (tags : List EmotionTag) : List EmotionMarker :=
  (List.range tags.length).filterMap (specMarkerAt cfg tags)

/-! ### Sample inputs -/

/-- The mapper of the specification's example: `开心` bound to one file. -/
def sampleMapper : Mapper :=
  { expressionConfig := some [(utf16 "开心", [utf16 "expressions/happy.exp3.json"])]
    defaultExpression := utf16 "表情1" }

/-- The text of the specification's example. -/
def sampleText : JSString := utf16 "你好<开心>今天天气不错"

/-- The tag of `sampleText`. -/
def sampleTag : EmotionTag :=
  { emotion := utf16 "开心", startIndex := 2, endIndex := 6, fullTag := utf16 "<开心>" }

/-- The marker of `sampleText` under `sampleMapper`. -/
def sampleMarker : EmotionMarker :=
  { position := 2
    emotion := utf16 "开心"
    expressionFiles := ConfigValue.files [utf16 "expressions/happy.exp3.json"] }

/-- Three markers at positions 2, 5 and 9. -/
def sampleMarkers : List EmotionMarker :=
  [{ position := 2, emotion := utf16 "开心", expressionFiles := ConfigValue.files [] },
   { position := 5, emotion := utf16 "生气", expressionFiles := ConfigValue.files [] },
   { position := 9, emotion := utf16 "难过", expressionFiles := ConfigValue.files [] }]

example : animateText 10 10 0 sampleMarkers = { fired := sampleMarkers, markers := [] } := by
  decide

/-- A segment that consists of one tag only. -/
def tagOnlyText : JSString := utf16 "<开心>"

/-- The marker of `tagOnlyText` under `sampleMapper`. -/
def tagOnlyMarker : EmotionMarker :=
  { position := 0
    emotion := utf16 "开心"
    expressionFiles := ConfigValue.files [utf16 "expressions/happy.exp3.json"] }

/-- A mapper in which `生气` is known but unbound and the configured default
`表情1` is bound. -/
def unboundMapper : Mapper :=
  { expressionConfig :=
      some [(utf16 "生气", []), (utf16 "表情1", [utf16 "expressions/expression1.exp3.json"])]
    defaultExpression := utf16 "表情1" }

/-- A mapper whose default chain reaches the loop over the entries. -/
def fallbackMapper : Mapper :=
  { expressionConfig :=
      some [(utf16 "开心", [utf16 "expressions/happy.exp3.json"]),
            (utf16 "微笑", [utf16 "expressions/smile.exp3.json"])]
    defaultExpression := utf16 "表情1" }

/-- A mapper whose configured default is the emotion-category label `开心`. -/
def reservedDefaultMapper : Mapper :=
  { expressionConfig := some [(utf16 "开心", [utf16 "expressions/happy.exp3.json"])]
    defaultExpression := utf16 "开心" }

example : revealSegment sampleMapper tagOnlyText = { fired := [], markers := [tagOnlyMarker] } := by
  decide

example : extractExpressionNameFromPath (some (utf16 "expressions/expression3.exp3.json")) =
    utf16 "表情3" := by
  decide

example : extractExpressionNameFromPath (some (utf16 "expressions/happy.exp3.json")) =
    utf16 "happy" := by
  decide

example : parseEmotionTagsWithPosition (utf16 "ab<x>c<<y>><>d<e") =
    [⟨utf16 "x", 2, 5, utf16 "<x>"⟩, ⟨utf16 "<y", 6, 10, utf16 "<<y>"⟩] := by
  decide

example : prepareTextForTTS ⟨some [(utf16 "开心", [utf16 "expressions/happy.exp3.json"])], utf16 "表情1"⟩
    (utf16 "你好<开心>今天天气不错") =
    ⟨utf16 "你好今天天气不错", [sampleMarker]⟩ := by
  decide

/-! ## Binding mutation -/

/-- The call `s.includes(pattern)`. -/
def includes : JSString → JSString → Bool
  | [], pattern => pattern.isEmpty
  | c :: cs, pattern => pattern.isPrefixOf (c :: cs) || includes cs pattern

/-- The method `findExpressionFile(expressionName)`: `none` is `null`,
`some none` is `undefined` (index 0 of an inherited function) and
`some (some file)` is a string. -/
def findExpressionFile (cfg : Option ExpressionConfig) (expressionName : JSString) :
    Option (Option JSString) :=
  let possibleNames :=
    [expressionName,
     replaceFirst (utf16 "表情") (utf16 "expression") expressionName,
     replaceFirst (utf16 "Expression") (utf16 "expression") expressionName]
  match possibleNames.findSome? (fun name => firstBound cfg name) with
  | some file => some file
  | none =>
    let expressionFile := utf16 "expressions/" ++ expressionName ++ utf16 ".exp3.json"
    if includes expressionFile (utf16 "expression") then some (some expressionFile) else none

/-- The number that an array-index key stands for: a canonical decimal numeral
below `2^32 - 1`. -/
def arrayIndex (key : JSString) : Option Nat :=
  match key with
  | [] => none
  | c :: rest =>
    if (c :: rest).all isDecDigit && (c != 48 || rest.isEmpty) then
      let value := (c :: rest).foldl (fun acc d => acc * 10 + (d - 48)) 0
      if value < 4294967295 then some value else none
    else none

/-- A new key `key` is listed before the existing key `k`: array indices come
first, in ascending order, the other keys follow in creation order. -/
def comesBefore (key k : JSString) : Bool :=
  match arrayIndex key with
  | none => false
  | some i =>
    match arrayIndex k with
    | none => true
    | some j => decide (i < j)

/-- The entry of a key that the record does not have yet, put at its place in
the iteration order. -/
def insertEntry : ExpressionConfig → JSString → List JSString → ExpressionConfig
  | [], key, value => [(key, value)]
  | (k, v) :: rest, key, value =>
    if comesBefore key k then (key, value) :: (k, v) :: rest
    else (k, v) :: insertEntry rest key value

/-- The new value of a key that the record has, the key keeping its place. -/
def replaceEntry : ExpressionConfig → JSString → List JSString → ExpressionConfig
  | [], _, _ => []
  | (k, v) :: rest, key, value =>
    if key = k then (k, value) :: rest else (k, v) :: replaceEntry rest key value

/-- The assignment `expressionConfig[key] = value`. -/
def configSet (cfg : ExpressionConfig) (key : JSString) (value : List JSString) :
    ExpressionConfig :=
  match cfg.lookup key with
  | some _ => replaceEntry cfg key value
  | none => insertEntry cfg key value

/-- The loop `for (const exprFile of expressionFiles)` of
`bindExpressionToEmotion`: a file not yet in `target` is pushed. -/
def pushMissing : List JSString → List JSString → List JSString
  | target, [] => target
  | target, exprFile :: rest =>
    if target.contains exprFile then pushMissing target rest
    else pushMissing (target ++ [exprFile]) rest

/-- Calls that leave the mapper on a binding mutation: `saveExpressionConfig()`
with the configuration at that time, and the events `EXPRESSION_BOUND` and
`EXPRESSION_UNBOUND`. -/
inductive ConfigEffect where
  | saveExpressionConfig (cfg : ExpressionConfig)
  | expressionBound (emotion expression : JSString) (files : List JSString)
  | expressionUnbound (emotion expression : JSString)
  deriving DecidableEq, Repr

/-- How a call ends: it returns a value, or a `TypeError` is thrown (a method or
an iteration applied to an inherited member that is not an array). -/
inductive CallResult where
  | returned (value : Bool)
  | threw
  deriving DecidableEq, Repr

/-- What a binding mutation does: how the call ends, the mapper afterwards and
the calls made. -/
structure MutationResult where
  result : CallResult
  mapper : Mapper
  effects : List ConfigEffect
  deriving DecidableEq, Repr

/-- The method `bindExpressionToEmotion(emotion, expressionName)`. A file that is
`undefined`, `null` or the empty string is falsy. When the lookup of
`expressionName` is an inherited member, the `for ... of` loop throws unless the
member is a function of `length` 0, for which the method returns `false`; when
the lookup of `emotion` is an inherited member, its `includes` is not a function
and the first turn of the loop throws. -/
def bindExpressionToEmotion (m : Mapper) (emotion expressionName : JSString) : MutationResult :=
  match m.expressionConfig with
  | none => { result := CallResult.returned false, mapper := m, effects := [] }
  | some cfg =>
    let added : Option ExpressionConfig :=
      match configGet (some cfg) expressionName with
      | some _ => some cfg
      | none =>
        match findExpressionFile (some cfg) expressionName with
        | some (some expressionFile) =>
          if expressionFile.isEmpty then none
          else some (configSet cfg expressionName [expressionFile])
        | _ => none
    match added with
    | none => { result := CallResult.returned false, mapper := m, effects := [] }
    | some cfg1 =>
      let cfg2 :=
        match configGet (some cfg1) emotion with
        | some _ => cfg1
        | none => configSet cfg1 emotion []
      match configGet (some cfg1) expressionName with
      | some (ConfigValue.files (file :: files)) =>
        let expressionFiles := file :: files
        match configGet (some cfg2) emotion with
        | some (ConfigValue.files target) =>
          let cfg3 := configSet cfg2 emotion (pushMissing target expressionFiles)
          { result := CallResult.returned true
            mapper := { expressionConfig := some cfg3, defaultExpression := m.defaultExpression }
            effects :=
              [ConfigEffect.saveExpressionConfig cfg3,
               ConfigEffect.expressionBound emotion expressionName
                 ((cfg3.lookup expressionName).getD [])] }
        | _ =>
          { result := CallResult.threw
            mapper := { expressionConfig := some cfg2, defaultExpression := m.defaultExpression }
            effects := [] }
      | some (ConfigValue.inherited (some (_ + 1))) =>
        { result := CallResult.threw
          mapper := { expressionConfig := some cfg2, defaultExpression := m.defaultExpression }
          effects := [] }
      | some (ConfigValue.inherited none) =>
        { result := CallResult.threw
          mapper := { expressionConfig := some cfg2, defaultExpression := m.defaultExpression }
          effects := [] }
      | _ =>
        { result := CallResult.returned false
          mapper := { expressionConfig := some cfg1, defaultExpression := m.defaultExpression }
          effects := [] }

/-- The call `files.findIndex(p)`; `none` is `-1`. -/
def findIndex (p : JSString → Bool) : List JSString → Option Nat
  | [] => none
  | file :: files => if p file then some 0 else (findIndex p files).map (fun i => i + 1)

/-- The method `removeExpressionFromEmotion(emotion, expressionName)`. When the
lookup of `emotion` is an inherited member, the guard lets it through and
`expressionFiles.findIndex` is not a function: the call throws. -/
def removeExpressionFromEmotion (m : Mapper) (emotion expressionName : JSString) :
    MutationResult :=
  match m.expressionConfig with
  | none => { result := CallResult.returned false, mapper := m, effects := [] }
  | some cfg =>
    match configGet (some cfg) emotion with
    | none => { result := CallResult.returned false, mapper := m, effects := [] }
    | some (ConfigValue.inherited _) =>
      { result := CallResult.threw, mapper := m, effects := [] }
    | some (ConfigValue.files expressionFiles) =>
      let expressionFileToRemove := utf16 "expressions/" ++ expressionName ++ utf16 ".exp3.json"
      match findIndex
          (fun file => decide (file = expressionFileToRemove) || includes file expressionName)
          expressionFiles with
      | some index =>
        let cfg1 := configSet cfg emotion (expressionFiles.eraseIdx index)
        { result := CallResult.returned true
          mapper := { expressionConfig := some cfg1, defaultExpression := m.defaultExpression }
          effects :=
            [ConfigEffect.saveExpressionConfig cfg1,
             ConfigEffect.expressionUnbound emotion expressionName] }
      | none => { result := CallResult.returned false, mapper := m, effects := [] }

/-! ### Specification side of the default chain -/

/-- An entry that the last step of the default chain accepts according to the
code: non-empty binding, not a reserved label, name not starting with `表情`. -/
def eligibleEntry (entry : JSString × List JSString) : Bool :=
  !entry.2.isEmpty && !reservedLabels.contains entry.1 && !startsWith entry.1 (utf16 "表情")

/-- An entry that the last step of the default chain accepts according to the
claim: non-empty binding and not a reserved label. -/
def boundNonReserved (entry : JSString × List JSString) : Bool :=
  !entry.2.isEmpty && !reservedLabels.contains entry.1

/-- The key and first file of the first entry accepted by `accept`. -/
def firstAccepted (accept : JSString × List JSString → Bool) (cfg : ExpressionConfig) :
    Option (JSString × JSString) :=
  match cfg.find? accept with
  | none => none
  | some (name, files) => files.head?.map (fun file => (name, file))

/-- A configuration with a bound `表情2` before a bound `微笑`. -/
def numberedMapper : Mapper :=
  { expressionConfig :=
      some [(utf16 "表情2", [utf16 "expressions/expression2.exp3.json"]),
            (utf16 "微笑", [utf16 "expressions/smile.exp3.json"])]
    defaultExpression := utf16 "表情1" }

/-- A configuration with a bound `微笑` before a bound `默认表情`. -/
def namedDefaultMapper : Mapper :=
  { expressionConfig :=
      some [(utf16 "微笑", [utf16 "expressions/smile.exp3.json"]),
            (utf16 "默认表情", [utf16 "expressions/neutral.exp3.json"])]
    defaultExpression := utf16 "表情1" }

/-- A configuration in which `开心` is bound to `happy2` only. -/
def happy2Mapper : Mapper :=
  { expressionConfig := some [(utf16 "开心", [utf16 "expressions/happy2.exp3.json"])]
    defaultExpression := utf16 "表情1" }

example : bindExpressionToEmotion sampleMapper (utf16 "生气") (utf16 "微笑") =
    { result := CallResult.returned true
      mapper :=
        { expressionConfig :=
            some [(utf16 "开心", [utf16 "expressions/happy.exp3.json"]),
                  (utf16 "微笑", [utf16 "expressions/微笑.exp3.json"]),
                  (utf16 "生气", [utf16 "expressions/微笑.exp3.json"])]
          defaultExpression := utf16 "表情1" }
      effects :=
        [ConfigEffect.saveExpressionConfig
           [(utf16 "开心", [utf16 "expressions/happy.exp3.json"]),
            (utf16 "微笑", [utf16 "expressions/微笑.exp3.json"]),
            (utf16 "生气", [utf16 "expressions/微笑.exp3.json"])],
         ConfigEffect.expressionBound (utf16 "生气") (utf16 "微笑")
           [utf16 "expressions/微笑.exp3.json"]] } := by
  decide

example : (removeExpressionFromEmotion happy2Mapper (utf16 "开心") (utf16 "happy")).result =
    CallResult.returned true := by
  decide

/-- A text with a tag whose label, `constructor`, is no key of a configuration
but the name of a member inherited from `Object.prototype`. -/
def inheritedLabelText : JSString := utf16 "a<constructor>b"

/-- The marker of `inheritedLabelText`: it carries the function `Object`. -/
def inheritedLabelMarker : EmotionMarker :=
  { position := 1
    emotion := utf16 "constructor"
    expressionFiles := ConfigValue.inherited (some 1) }

/-- A configuration whose key `1` was created after the key `开心`. -/
def indexKeyMapper : Mapper :=
  { expressionConfig :=
      some [(utf16 "1", [utf16 "expressions/one.exp3.json"]),
            (utf16 "开心", [utf16 "expressions/happy.exp3.json"])]
    defaultExpression := utf16 "表情1" }

example : (bindExpressionToEmotion sampleMapper (utf16 "开心") (utf16 "constructor")).result =
    CallResult.threw := by
  decide

example : (bindExpressionToEmotion sampleMapper (utf16 "开心") (utf16 "toString")).result =
    CallResult.returned false := by
  decide

example : (bindExpressionToEmotion sampleMapper (utf16 "0") (utf16 "happy")).mapper.expressionConfig =
    some [(utf16 "0", [utf16 "expressions/happy.exp3.json"]),
          (utf16 "开心", [utf16 "expressions/happy.exp3.json"]),
          (utf16 "happy", [utf16 "expressions/happy.exp3.json"])] := by
  decide

example : (removeExpressionFromEmotion sampleMapper (utf16 "constructor") (utf16 "x")).result =
    CallResult.threw := by
  decide

/-! ## Playback engine -/

/-- The object a completion is resolved with; a field that is absent is `none`. -/
structure Completion where
  completed : Option Bool
  stopped : Option Bool
  error : Option Bool
  deriving DecidableEq, Repr

/-- The mutable fields of `TTSPlaybackEngine`. A callback field is `true` when the
callback is set. An object, a URL, a resolver or a tick handle is `none` when the
field is `null` and `some id` when it is set; ids returned by
`requestAnimationFrame` are non-zero, so a stored handle is truthy. -/
structure Engine where
  onAudioDataCallback : Bool
  onStartCallback : Bool
  audioContext : Bool
  currentAudio : Option Nat
  currentAudioUrl : Option Nat
  isPlaying : Bool
  shouldStop : Bool
  currentAudioResolve : Option Nat
  _textAnimInterval : Option Nat
  _renderFrameId : Option Nat
  displayedText : JSString
  currentSegmentText : JSString
  deriving DecidableEq, Repr

/-- Calls that leave the engine, in call order. `audioStopped` stands for the
block of `stop()` that nulls the four handlers of the audio element, pauses it
and clears its `src`; `audioData average` is `onAudioDataCallback(Math.pow(average
/ 256, 0.8))`, the power not being computed; `resolve handle payload` is a call of
the stored resolver, `payload = none` being `undefined`. -/
inductive EngineEffect where
  | cancelAnimationFrame (id : Nat)
  | requestAnimationFrame (id : Nat)
  | audioStopped (audio : Nat)
  | revokeObjectURL (url : Nat)
  | audioDataZero
  | audioData (average : ℚ)
  | resolve (handle : Nat) (payload : Option Completion)
  | createAudioContext
  | startCallback
  | emitTtsStart
  | createAudio (url audio : Nat)
  | play (audio : Nat)
  | emotionMapperTrigger (position : Nat)
  | triggerExpressionByEmotion (emotion : JSString)
  | showSubtitle (text : JSString)
  deriving DecidableEq, Repr

/-- An engine state with the calls made to reach it. -/
structure EngineStep where
  engine : Engine
  effects : List EngineEffect
  deriving DecidableEq, Repr

/-- The block `if (handle) { cancelAnimationFrame(handle); handle = null; }`:
the call made. -/
def cancelFrame (handle : Option Nat) : List EngineEffect :=
  match handle with
  | some id => [EngineEffect.cancelAnimationFrame id]
  | none => []

/-- The call `onAudioDataCallback(0)` guarded by `if (this.onAudioDataCallback)`. -/
def sendZero (e : Engine) : List EngineEffect :=
  if e.onAudioDataCallback then [EngineEffect.audioDataZero] else []

/-- The method `cleanup()`. -/
def cleanup (e : Engine) : EngineStep :=
  { engine := { e with currentAudioUrl := none, currentAudio := none }
    effects :=
      match e.currentAudioUrl with
      | some url => [EngineEffect.revokeObjectURL url]
      | none => [] }

/-- The method `cleanupOnError()`. -/
def cleanupOnError (e : Engine) : EngineStep :=
  let e1 : Engine := { e with _textAnimInterval := none, _renderFrameId := none }
  let cleaned := cleanup e1
  { engine := { cleaned.engine with isPlaying := false }
    effects :=
      sendZero e ++ cancelFrame e._textAnimInterval ++ cancelFrame e._renderFrameId ++
        cleaned.effects }

/-- The payload `{ completed: false, stopped: true }`. -/
def stoppedPayload : Completion :=
  { completed := some false, stopped := some true, error := none }

/-- The method `stop()`. -/
def stop (e : Engine) : EngineStep :=
  let e1 : Engine :=
    { e with shouldStop := true, _textAnimInterval := none, _renderFrameId := none }
  let audioFx :=
    match e.currentAudio with
    | some audio => [EngineEffect.audioStopped audio]
    | none => []
  let cleaned := cleanup e1
  let resolveFx :=
    match e.currentAudioResolve with
    | some handle => [EngineEffect.resolve handle (some stoppedPayload)]
    | none => []
  { engine := { cleaned.engine with isPlaying := false, currentAudioResolve := none }
    effects :=
      cancelFrame e._textAnimInterval ++ cancelFrame e._renderFrameId ++ audioFx ++
        cleaned.effects ++ sendZero e ++ resolveFx }

/-- The effect is a call of a stored resolver. -/
def isResolve : EngineEffect → Bool
  | EngineEffect.resolve _ _ => true
  | _ => false

/-- The value of `charInterval` in `startTextAnimation`, `Math.max(30,
Math.min(200, audioDuration / segmentLength))`, for a finite `audioDuration` in
milliseconds, the quotient taken exactly; `none` is `NaN` (`0 / 0`), and a
division of a non-zero duration by zero is an infinity, clamped like any other
value. -/
def charInterval (audioDuration : ℚ) (segmentLength : Nat) : Option ℚ :=
  if segmentLength = 0 then
    if audioDuration = 0 then none
    else if 0 < audioDuration then some 200 else some 30
  else some (max 30 (min 200 (audioDuration / (segmentLength : ℚ))))

/-- The local variables of one `playAudio` call that the reveal tick reads and
writes. `charInterval = none` is `NaN`. -/
structure Playback where
  segmentLength : Nat
  processedText : JSString
  charInterval : Option ℚ
  charDisplayIndex : Nat
  lastUpdateTime : ℚ
  emotionMarkers : List EmotionMarker
  expressionMarkers : List EmotionMarker

/-- What the engine is connected to. `emotionMapper` is the emotion-motion
mapper, a class outside these sources, given by what its
`triggerEmotionByTextPosition` leaves of the marker array; `expressionMapper` is
`true` when the expression mapper is set; `showSubtitle` is `true` when the
global function exists; `subtitleLabel` is `config.subtitle_labels?.ai ||
'Fake Neuro'`. -/
structure Collaborators where
  emotionMapper : Option (Nat → Nat → List EmotionMarker → List EmotionMarker)
  expressionMapper : Bool
  showSubtitle : Bool
  subtitleLabel : JSString

/-- What one frame callback does. -/
structure FrameResult where
  engine : Engine
  playback : Playback
  effects : List EngineEffect

/-- The test `currentTime - lastUpdateTime >= charInterval`, false on `NaN`. -/
def intervalElapsed (currentTime : ℚ) (p : Playback) : Bool :=
  match p.charInterval with
  | some interval => decide (currentTime - p.lastUpdateTime ≥ interval)
  | none => false

/-- One call of the frame callback `animateText(currentTime)`; `requestId` is the
id that `requestAnimationFrame` returns if it is called. -/
def animateTextFrame (env : Collaborators) (e : Engine) (p : Playback) (currentTime : ℚ)
    (requestId : Nat) : FrameResult :=
  if e.shouldStop || e.currentAudio.isNone then
    { engine := e, playback := p, effects := [] }
  else
    let revealed : Playback × List EngineEffect :=
      if intervalElapsed currentTime p && decide (p.charDisplayIndex < p.segmentLength) then
        let charDisplayIndex := p.charDisplayIndex + 1
        let emotionStep : List EmotionMarker × List EngineEffect :=
          match env.emotionMapper with
          | some trigger =>
            if p.emotionMarkers.length > 0 then
              (trigger charDisplayIndex p.segmentLength p.emotionMarkers,
                [EngineEffect.emotionMapperTrigger charDisplayIndex])
            else (p.emotionMarkers, [])
          | none => (p.emotionMarkers, [])
        let direct : List EngineEffect :=
          if env.expressionMapper then
            match windowScan (charDisplayIndex : Int) emotionStep.1 emotionStep.1.length with
            | some (_, marker) => [EngineEffect.triggerExpressionByEmotion marker.emotion]
            | none => []
          else []
        let byMarker : TriggerResult :=
          if env.expressionMapper && decide (p.expressionMarkers.length > 0) then
            triggerEmotionByTextPosition (charDisplayIndex : Int) (p.segmentLength : Int)
              p.expressionMarkers
          else { fired := [], markers := p.expressionMarkers }
        let subtitle : List EngineEffect :=
          if env.showSubtitle then
            [EngineEffect.showSubtitle
              (env.subtitleLabel ++ utf16 ": " ++ e.displayedText ++
                substring p.processedText 0 charDisplayIndex)]
          else []
        ({ p with
            charDisplayIndex := charDisplayIndex
            lastUpdateTime := currentTime
            emotionMarkers := emotionStep.1
            expressionMarkers := byMarker.markers },
          emotionStep.2 ++ direct ++
            byMarker.fired.map (fun marker => EngineEffect.triggerExpressionByEmotion marker.emotion)
            ++ subtitle)
      else (p, [])
    if decide (revealed.1.charDisplayIndex < revealed.1.segmentLength) && !e.shouldStop then
      { engine := { e with _textAnimInterval := some requestId }
        playback := revealed.1
        effects := revealed.2 ++ [EngineEffect.requestAnimationFrame requestId] }
    else { engine := e, playback := revealed.1, effects := revealed.2 }

/-- One call of the frame callback `updateMouth()` with the bytes that
`getByteFrequencyData` writes into `dataArray`; `requestId` is the id that
`requestAnimationFrame` returns if it is called. -/
def updateMouth (e : Engine) (dataArray : List Nat) (requestId : Nat) : EngineStep :=
  if e.shouldStop || e.currentAudio.isNone then { engine := e, effects := [] }
  else
    let sampleCount : ℚ := (dataArray.length : ℚ) / 2
    let sum : Nat := (dataArray.take ((dataArray.length + 1) / 2)).sum
    let average : ℚ := (sum : ℚ) / sampleCount
    { engine := { e with _renderFrameId := some requestId }
      effects :=
        (if e.onAudioDataCallback then [EngineEffect.audioData average] else []) ++
          [EngineEffect.requestAnimationFrame requestId] }

/-- How the promise returned by `playAudio` stands when the synchronous part of
the call is over: resolved with `undefined`, or pending. -/
inductive PlayOutcome where
  | resolved
  | pending
  deriving DecidableEq, Repr

/-- What the start of `playAudio` does. -/
structure PlayResult where
  engine : Engine
  effects : List EngineEffect
  outcome : PlayOutcome
  deriving DecidableEq, Repr

/-- The method `playAudio(audioBlob, segmentText)` up to the call of
`currentAudio.play()`: `audioBlob` is `true` when a blob is given, and
`resolveId`, `url`, `audio` are the identities of the promise's resolver, of
the object URL and of the audio element created by the call. -/
def playAudio (e : Engine) (audioBlob : Bool) (segmentText : JSString)
    (resolveId url audio : Nat) : PlayResult :=
  if !audioBlob then { engine := e, effects := [], outcome := PlayOutcome.resolved }
  else
    let contextFx := if e.audioContext then [] else [EngineEffect.createAudioContext]
    let e1 : Engine := { e with audioContext := true, currentSegmentText := segmentText }
    if e1.shouldStop then
      { engine := e1, effects := contextFx, outcome := PlayOutcome.resolved }
    else
      { engine :=
          { e1 with
            isPlaying := true
            currentAudioResolve := some resolveId
            currentAudioUrl := some url
            currentAudio := some audio }
        effects :=
          contextFx ++ (if e.onStartCallback then [EngineEffect.startCallback] else []) ++
            [EngineEffect.emitTtsStart, EngineEffect.createAudio url audio,
             EngineEffect.play audio]
        outcome := PlayOutcome.pending }

/-- An engine in the middle of a segment. -/
def playingEngine : Engine :=
  { onAudioDataCallback := true
    onStartCallback := true
    audioContext := true
    currentAudio := some 1
    currentAudioUrl := some 2
    isPlaying := true
    shouldStop := false
    currentAudioResolve := some 3
    _textAnimInterval := some 4
    _renderFrameId := some 5
    displayedText := []
    currentSegmentText := sampleText }

/-- The reveal state of `sampleText` before the first character. -/
def samplePlayback : Playback :=
  { segmentLength := 8
    processedText := utf16 "你好今天天气不错"
    charInterval := some 100
    charDisplayIndex := 0
    lastUpdateTime := 0
    emotionMarkers := []
    expressionMarkers := [sampleMarker] }

/-- The engine of `playingEngine` after cancellation was requested, its other
fields untouched. -/
def cancelledEngine : Engine :=
  { playingEngine with shouldStop := true }

/-- An engine connected to the expression mapper only. -/
def sampleCollaborators : Collaborators :=
  { emotionMapper := none
    expressionMapper := true
    showSubtitle := true
    subtitleLabel := utf16 "Fake Neuro" }

example : stop playingEngine =
    { engine :=
        { playingEngine with
          currentAudio := none
          currentAudioUrl := none
          isPlaying := false
          shouldStop := true
          currentAudioResolve := none
          _textAnimInterval := none
          _renderFrameId := none }
      effects :=
        [EngineEffect.cancelAnimationFrame 4, EngineEffect.cancelAnimationFrame 5,
         EngineEffect.audioStopped 1, EngineEffect.revokeObjectURL 2,
         EngineEffect.audioDataZero, EngineEffect.resolve 3 (some stoppedPayload)] } := by
  rfl

/-! ## Loading the configuration -/

/-- The method `createDefaultExpressionConfig()`. -/
def createDefaultExpressionConfig : ExpressionConfig :=
  [(utf16 "开心", []), (utf16 "生气", []), (utf16 "难过", []),
   (utf16 "惊讶", []), (utf16 "害羞", []), (utf16 "俏皮", [])]

/-- One character record of `emotion_expressions.json`; a record without the
field `emotion_expressions` has `none`. -/
structure CharacterRecord where
  emotion_expressions : Option ExpressionConfig
  deriving DecidableEq, Repr

/-- The decoded file `emotion_expressions.json`: character name to record. -/
abbrev AllCharacterConfigs := List (JSString × CharacterRecord)

/-- How `fetch('emotion_expressions.json')` and `response.json()` end: the fetch
rejects, the response is not OK, the body is not JSON, or the data arrive. -/
inductive FetchOutcome where
  | networkError
  | httpError (status : Nat)
  | invalidJson
  | data (all : AllCharacterConfigs)
  deriving DecidableEq, Repr

/-- The fields of the mapper that `loadExpressionConfig` writes. -/
structure LoaderState where
  expressionConfig : Option ExpressionConfig
  allCharacterConfigs : Option AllCharacterConfigs
  currentCharacter : Option JSString
  deriving DecidableEq, Repr

/-- The pattern `2D\/([^\/]+)\/` tried at the head of `s`; the result is capture
group 1. -/
def matchCharacterHere : JSString → Option JSString
  | 50 :: 68 :: 47 :: rest =>
    match rest.span (fun x => x != 47) with
    | (_, []) => none
    | (name, _ :: _) => if name.isEmpty then none else some name
  | _ => none

/-- The call `modelPath.match(/2D\/([^\/]+)\//)`: capture group 1 of the leftmost
match. -/
def matchCharacter : JSString → Option JSString
  | [] => none
  | c :: rest =>
    match matchCharacterHere (c :: rest) with
    | some name => some name
    | none => matchCharacter rest

/-- The method `getCurrentCharacterName()`; `modelUrl` is the `url` of the model
settings, `none` when the model or its settings are missing. -/
def getCurrentCharacterName (modelUrl : Option JSString) : JSString :=
  match modelUrl with
  | none => utf16 "肥牛"
  | some modelPath =>
    match matchCharacter modelPath with
    | some characterName => characterName
    | none => utf16 "肥牛"

/-- The `try` block of `loadExpressionConfig`: `Except.error` is a throw, with
the fields as they stand at the throw. In the `else` branch
`createCharacterConfig` calls `this.createDefaultEmotionConfig`, which the class
does not define, inside its own `try`: it changes no field. -/
def loadTryBlock (s : LoaderState) (modelUrl : Option JSString) (outcome : FetchOutcome) :
    Except LoaderState LoaderState :=
  match outcome with
  | FetchOutcome.networkError => Except.error s
  | FetchOutcome.httpError _ => Except.error s
  | FetchOutcome.invalidJson => Except.error s
  | FetchOutcome.data all =>
    let currentCharacter := getCurrentCharacterName modelUrl
    let s1 : LoaderState :=
      { s with allCharacterConfigs := some all, currentCharacter := some currentCharacter }
    match (if currentCharacter.isEmpty then none else all.lookup currentCharacter) with
    | some record =>
      match record.emotion_expressions with
      | some cfg => Except.ok { s1 with expressionConfig := some cfg }
      | none => Except.error { s1 with expressionConfig := none }
    | none => Except.ok { s1 with expressionConfig := some createDefaultExpressionConfig }

/-- The method `loadExpressionConfig()`: the `try` block, and the `catch` block
that installs the default configuration. -/
def loadExpressionConfig (s : LoaderState) (modelUrl : Option JSString)
    (outcome : FetchOutcome) : LoaderState :=
  match loadTryBlock s modelUrl outcome with
  | Except.ok s1 => s1
  | Except.error s1 => { s1 with expressionConfig := some createDefaultExpressionConfig }

/-- The loader fields of a freshly constructed mapper. -/
def freshLoader : LoaderState :=
  { expressionConfig := none, allCharacterConfigs := none, currentCharacter := none }

example : getCurrentCharacterName (some (utf16 "2D/肥牛/hiyori_pro_mic.model3.json")) =
    utf16 "肥牛" := by
  decide

example : getCurrentCharacterName (some (utf16 "assets/2D/橘色女生/m.model3.json")) =
    utf16 "橘色女生" := by
  decide

/-- A decoded file with one record, for the character `肥牛`. -/
def sampleAllConfigs : AllCharacterConfigs :=
  [(utf16 "肥牛",
    { emotion_expressions := some [(utf16 "开心", [utf16 "expressions/happy.exp3.json"])] })]

example : loadExpressionConfig freshLoader (some (utf16 "2D/肥牛/hiyori_pro_mic.model3.json"))
    (FetchOutcome.data sampleAllConfigs) =
    { expressionConfig := some [(utf16 "开心", [utf16 "expressions/happy.exp3.json"])]
      allCharacterConfigs := some sampleAllConfigs
      currentCharacter := some (utf16 "肥牛") } := by
  decide

/-- A configuration in which `开心` is bound to `happy2` and then to `happy`. -/
def twoHappyMapper : Mapper :=
  { expressionConfig :=
      some [(utf16 "开心",
        [utf16 "expressions/happy2.exp3.json", utf16 "expressions/happy.exp3.json"])]
    defaultExpression := utf16 "表情1" }

example : parseEmotionTagsWithPosition (utf16 "<><a>") = [⟨utf16 "a", 2, 5, utf16 "<a>"⟩] := by
  decide

example : (prepareTextForTTS sampleMapper (utf16 "<><a>")).text = utf16 "<>" := by
  decide

example : parseEmotionTagsWithPosition (prepareTextForTTS sampleMapper (utf16 "<<a>b>x<")).text =
    [] := by
  decide

example : parseEmotionTagsWithPosition (prepareTextForTTS sampleMapper (utf16 "a<<>b>c<d")).text =
    [] := by
  decide

/-! ### Specification side of re-parsing -/

/-- No match of the tag pattern starts at any index of `s`. -/
def NoMatch : JSString → Prop
  | [] => True
  | c :: rest => matchTagHere (c :: rest) = none ∧ NoMatch rest

/-- Every `<` of `s` is immediately followed, inside `s`, by `>`. -/
def Closed : JSString → Prop
  | [] => True
  | c :: rest => (c = chLt → ∃ rest', rest = chGt :: rest') ∧ Closed rest

/-- A configuration in which `开心` is bound to three candidates. -/
def threeHappyMapper : Mapper :=
  { expressionConfig :=
      some [(utf16 "开心",
        [utf16 "expressions/happy1.exp3.json", utf16 "expressions/happy2.exp3.json",
         utf16 "expressions/happy3.exp3.json"])]
    defaultExpression := utf16 "表情1" }

/-- The three candidates of `开心` in `threeHappyMapper`. -/
def threeHappyFiles : List JSString :=
  [utf16 "expressions/happy1.exp3.json", utf16 "expressions/happy2.exp3.json",
   utf16 "expressions/happy3.exp3.json"]

/-- The double `0.3333333333333333`, the nearest to one third. -/
def oneThird : ℚ := 6004799503160661 / 2 ^ 54

/-! ## Theorems: tag parser -/

theorem matchTagHere_some {s label : JSString} (h : matchTagHere s = some label) :
    ∃ rest, s = chLt :: (label ++ chGt :: rest) ∧ label ≠ [] ∧ chGt ∉ label := by
  cases s with
  | nil => simp [matchTagHere] at h
  | cons c rest =>
    simp only [matchTagHere] at h
    split at h
    · rename_i hc
      rw [List.span_eq_take_drop] at h
      split at h
      · simp at h
      · rename_i l g r heq
        simp only [Prod.mk.injEq] at heq
        obtain ⟨h1, h2⟩ := heq
        split at h
        · simp at h
        · rename_i hne
          simp only [Option.some.injEq] at h
          subst h
          have hg : g = chGt := by
            have := List.head_dropWhile_not (fun x => x != chGt) rest (by rw [h2]; simp)
            simp [h2] at this
            exact this
          refine ⟨r, ?_, ?_, ?_⟩
          · subst hc
            rw [← hg, ← h2, ← h1, List.takeWhile_append_dropWhile]
          · intro h0; apply hne; simp [h0]
          · intro hmem
            rw [← h1] at hmem
            have := List.mem_takeWhile_imp hmem
            simp at this
    · simp at h

theorem findMatch_some {s label : JSString} {i idx : Nat}
    (h : findMatch i s = some (idx, label)) :
    ∃ pre rest, s = pre ++ chLt :: (label ++ chGt :: rest) ∧ idx = i + pre.length ∧
      label ≠ [] ∧ chGt ∉ label := by
  induction s generalizing i with
  | nil => simp [findMatch] at h
  | cons c cs ih =>
    simp only [findMatch] at h
    split at h
    · rename_i l hm
      simp only [Option.some.injEq, Prod.mk.injEq] at h
      obtain ⟨h1, h2⟩ := h
      subst h1 h2
      obtain ⟨rest, hs, hne, hgt⟩ := matchTagHere_some hm
      exact ⟨[], rest, by simpa using hs, by simp, hne, hgt⟩
    · obtain ⟨pre, rest, hs, hidx, hne, hgt⟩ := ih h
      refine ⟨c :: pre, rest, by simp [hs], ?_, hne, hgt⟩
      simp only [List.length_cons]
      omega

theorem exec_some {text label : JSString} {k idx : Nat}
    (h : exec text k = some (idx, label)) :
    k ≤ idx ∧ idx + (label.length + 2) ≤ text.length ∧
      (text.drop idx).take (label.length + 2) = chLt :: (label ++ [chGt]) ∧
      label ≠ [] ∧ chGt ∉ label := by
  unfold exec at h
  split at h
  · simp at h
  · rename_i hk
    obtain ⟨pre, rest, hs, hidx, hne, hgt⟩ := findMatch_some h
    have hlen : text.length - k = pre.length + (label.length + 2 + rest.length) := by
      have := congrArg List.length hs
      simp only [List.length_drop, List.length_append, List.length_cons] at this
      omega
    refine ⟨by omega, by omega, ?_, hne, hgt⟩
    have hd : text.drop idx = chLt :: (label ++ chGt :: rest) := by
      rw [hidx, ← List.drop_drop, hs, List.drop_left]
    rw [hd]
    have : chLt :: (label ++ chGt :: rest) = (chLt :: (label ++ [chGt])) ++ rest := by simp
    rw [this, List.take_left']
    simp

theorem exec_none_of_lt {text : JSString} {k : Nat} (h : text.length < k) :
    exec text k = none := by
  simp [exec, h]

theorem parseLoop_tagsFrom (text : JSString) (fuel k : Nat) :
    TagsFrom text k (parseLoop text fuel k) := by
  induction fuel generalizing k with
  | zero => simp [parseLoop, TagsFrom]
  | succ n ih =>
    simp only [parseLoop]
    split
    · simp [TagsFrom]
    · rename_i idx label hex
      obtain ⟨h1, h2, h3, h4, h5⟩ := exec_some hex
      simp only [TagsFrom]
      refine ⟨h1, trivial, h2, h4, h5, ?_, ?_, ih _⟩
      · simp only [substring]
        rw [Nat.max_eq_right (by omega), Nat.min_eq_left (by omega), ← List.take_drop, h3]
      · simp only [substring]
        rw [Nat.max_eq_right (by omega), Nat.min_eq_left (by omega), ← List.take_drop]

theorem parseLoop_fuel (text : JSString) (f1 f2 k : Nat)
    (h1 : text.length < f1 + k) (h2 : text.length < f2 + k) :
    parseLoop text f1 k = parseLoop text f2 k := by
  induction f1 generalizing f2 k with
  | zero =>
    cases f2 with
    | zero => rfl
    | succ m => simp [parseLoop, exec_none_of_lt (by omega : text.length < k)]
  | succ n ih =>
    cases f2 with
    | zero => simp [parseLoop, exec_none_of_lt (by omega : text.length < k)]
    | succ m =>
      simp only [parseLoop]
      split
      · rfl
      · rename_i idx label hex
        obtain ⟨h3, h4, -⟩ := exec_some hex
        rw [ih m _ (by omega) (by omega)]

theorem parse_tagsFrom (text : JSString) :
    TagsFrom text 0 (parseEmotionTagsWithPosition text) :=
  parseLoop_tagsFrom text _ 0

/-! ### Geometry of the spans -/

theorem inTag_cons (t : EmotionTag) (ts : List EmotionTag) (j : Nat) :
    inTag (t :: ts) j = ((decide (t.startIndex ≤ j) && decide (j < t.endIndex)) || inTag ts j) := by
  simp [inTag]

theorem tagsFrom_spansFrom {text : JSString} {k : Nat} {ts : List EmotionTag}
    (h : TagsFrom text k ts) (hk : k ≤ text.length) : SpansFrom k ts text.length := by
  induction ts generalizing k with
  | nil => simpa [SpansFrom] using hk
  | cons t rest ih =>
    obtain ⟨h1, h2, h3, -, -, -, -, h8⟩ := h
    exact ⟨h1, by omega, ih h8 h3⟩

theorem spansFrom_le {k n : Nat} {ts : List EmotionTag} (h : SpansFrom k ts n) : k ≤ n := by
  induction ts generalizing k with
  | nil => exact h
  | cons t rest ih =>
    obtain ⟨h1, h2, h3⟩ := h
    have := ih h3
    omega

theorem spansFrom_not_inTag {k n j : Nat} {ts : List EmotionTag} (h : SpansFrom k ts n)
    (hj : j < k) : inTag ts j = false := by
  induction ts generalizing k with
  | nil => simp [inTag]
  | cons t rest ih =>
    obtain ⟨h1, h2, h3⟩ := h
    rw [inTag_cons, ih h3 (by omega)]
    simp
    omega

theorem spansFrom_split {k n : Nat} {pre post : List EmotionTag} {t : EmotionTag}
    (h : SpansFrom k (pre ++ t :: post) n) :
    SpansFrom k pre t.startIndex ∧ SpansFrom t.startIndex (t :: post) n := by
  induction pre generalizing k with
  | nil =>
    obtain ⟨h1, h2, h3⟩ := h
    exact ⟨h1, Nat.le_refl _, h2, h3⟩
  | cons p pre ih =>
    obtain ⟨h1, h2, h3⟩ := h
    obtain ⟨h4, h5⟩ := ih h3
    exact ⟨⟨h1, h2, h4⟩, h5⟩

theorem inTag_append (a b : List EmotionTag) (j : Nat) :
    inTag (a ++ b) j = (inTag a j || inTag b j) := by
  simp [inTag]

theorem keepOutside_append (tags : List EmotionTag) (i : Nat) (a b : JSString) :
    keepOutside tags i (a ++ b) = keepOutside tags i a ++ keepOutside tags (i + a.length) b := by
  induction a generalizing i with
  | nil => simp [keepOutside]
  | cons c cs ih =>
    rw [List.cons_append]
    simp only [keepOutside, List.length_cons]
    rw [ih (i + 1), show i + 1 + cs.length = i + (cs.length + 1) by omega]
    split <;> simp

theorem keepOutside_congr (t1 t2 : List EmotionTag) (i : Nat) (s : JSString)
    (h : ∀ j, i ≤ j → j < i + s.length → inTag t1 j = inTag t2 j) :
    keepOutside t1 i s = keepOutside t2 i s := by
  induction s generalizing i with
  | nil => simp [keepOutside]
  | cons c cs ih =>
    simp only [keepOutside]
    rw [h i (Nat.le_refl _) (by simp), ih (i + 1) (fun j h1 h2 => h j (by omega) (by
      simp only [List.length_cons]; omega))]

theorem keepOutside_none (tags : List EmotionTag) (i : Nat) (s : JSString)
    (h : ∀ j, i ≤ j → j < i + s.length → inTag tags j = false) :
    keepOutside tags i s = s := by
  induction s generalizing i with
  | nil => simp [keepOutside]
  | cons c cs ih =>
    simp only [keepOutside]
    rw [h i (Nat.le_refl _) (by simp), ih (i + 1) (fun j h1 h2 => h j (by omega) (by
      simp only [List.length_cons]; omega))]
    simp

theorem keepOutside_all (tags : List EmotionTag) (i : Nat) (s : JSString)
    (h : ∀ j, i ≤ j → j < i + s.length → inTag tags j = true) :
    keepOutside tags i s = [] := by
  induction s generalizing i with
  | nil => simp [keepOutside]
  | cons c cs ih =>
    simp only [keepOutside]
    rw [h i (Nat.le_refl _) (by simp), ih (i + 1) (fun j h1 h2 => h j (by omega) (by
      simp only [List.length_cons]; omega))]
    simp

theorem keepOutside_cons_spans {k n : Nat} {t : EmotionTag} {rest : List EmotionTag}
    (h : SpansFrom k (t :: rest) n) (s : JSString) (hs : s.length = n - k) :
    keepOutside (t :: rest) k s =
      s.take (t.startIndex - k) ++ keepOutside rest t.endIndex (s.drop (t.endIndex - k)) := by
  obtain ⟨h1, h2, h3⟩ := h
  have h4 := spansFrom_le h3
  have e1 : s.take (t.startIndex - k) ++
      ((s.drop (t.startIndex - k)).take (t.endIndex - t.startIndex) ++
        (s.drop (t.startIndex - k)).drop (t.endIndex - t.startIndex)) = s := by
    rw [List.take_append_drop, List.take_append_drop]
  have e2 : (s.drop (t.startIndex - k)).drop (t.endIndex - t.startIndex) =
      s.drop (t.endIndex - k) := by
    rw [List.drop_drop]
    congr 1
    omega
  have lA : (s.take (t.startIndex - k)).length = t.startIndex - k := by
    rw [List.length_take]; omega
  have lB : ((s.drop (t.startIndex - k)).take (t.endIndex - t.startIndex)).length =
      t.endIndex - t.startIndex := by
    rw [List.length_take, List.length_drop]; omega
  calc keepOutside (t :: rest) k s
      = keepOutside (t :: rest) k (s.take (t.startIndex - k) ++
          ((s.drop (t.startIndex - k)).take (t.endIndex - t.startIndex) ++
            (s.drop (t.startIndex - k)).drop (t.endIndex - t.startIndex))) := by rw [e1]
    _ = keepOutside (t :: rest) k (s.take (t.startIndex - k)) ++
          (keepOutside (t :: rest) t.startIndex
              ((s.drop (t.startIndex - k)).take (t.endIndex - t.startIndex)) ++
            keepOutside (t :: rest) t.endIndex (s.drop (t.endIndex - k))) := by
        rw [keepOutside_append, keepOutside_append, lA, lB, e2,
          show k + (t.startIndex - k) = t.startIndex by omega,
          show t.startIndex + (t.endIndex - t.startIndex) = t.endIndex by omega]
    _ = s.take (t.startIndex - k) ++ ([] ++ keepOutside rest t.endIndex (s.drop (t.endIndex - k))) := by
        rw [keepOutside_none _ _ (s.take (t.startIndex - k)), keepOutside_all,
          keepOutside_congr (t :: rest) rest]
        · intro j hj1 hj2
          rw [inTag_cons]
          simp
          omega
        · intro j hj1 hj2
          rw [inTag_cons, lB] at *
          simp
          left
          omega
        · intro j hj1 hj2
          rw [lA] at hj2
          rw [inTag_cons, spansFrom_not_inTag h3 (by omega)]
          simp
          omega
    _ = _ := by simp

theorem keepOutside_length_spans {k n : Nat} {ts : List EmotionTag} (h : SpansFrom k ts n)
    (s : JSString) (hs : s.length = n - k) :
    (keepOutside ts k s).length + tagLengthSum ts = n - k := by
  induction ts generalizing k s with
  | nil =>
    rw [keepOutside_none _ _ _ (fun j _ _ => by simp [inTag])]
    simp [tagLengthSum, hs]
  | cons t rest ih =>
    rw [keepOutside_cons_spans h s hs]
    obtain ⟨h1, h2, h3⟩ := h
    have h4 := spansFrom_le h3
    have := ih h3 (s.drop (t.endIndex - k)) (by rw [List.length_drop]; omega)
    simp only [List.length_append, List.length_take, tagLengthSum, List.map_cons,
      List.sum_cons, tagLength] at *
    omega

theorem removeTags_eq {text : JSString} {k : Nat} {ts : List EmotionTag}
    (h : SpansFrom k ts text.length) :
    removeTags text ts = text.take k ++ keepOutside ts k (text.drop k) := by
  induction ts generalizing k with
  | nil =>
    rw [keepOutside_none _ _ _ (fun j _ _ => by simp [inTag])]
    simp [removeTags]
  | cons t rest ih =>
    have hd := keepOutside_cons_spans h (text.drop k) (by simp)
    obtain ⟨h1, h2, h3⟩ := h
    have h4 := spansFrom_le h3
    have hr : removeTags text (t :: rest) =
        substring (removeTags text rest) 0 t.startIndex ++
          substringFrom (removeTags text rest) t.endIndex := rfl
    rw [hr, ih h3, hd]
    have lE : (text.take t.endIndex).length = t.endIndex := by
      rw [List.length_take]; omega
    have e1 : substring (text.take t.endIndex ++ keepOutside rest t.endIndex (text.drop t.endIndex))
        0 t.startIndex = text.take t.startIndex := by
      simp only [substring, Nat.zero_le, Nat.max_eq_right, Nat.min_eq_left, List.drop_zero]
      rw [List.take_append_of_le_length (by omega), List.take_take, Nat.min_eq_left h2]
    have e2 : substringFrom (text.take t.endIndex ++ keepOutside rest t.endIndex (text.drop t.endIndex))
        t.endIndex = keepOutside rest t.endIndex (text.drop t.endIndex) := by
      simp only [substringFrom]
      rw [List.drop_left' lE]
    have e3 : text.take t.startIndex = text.take k ++ (text.drop k).take (t.startIndex - k) := by
      rw [← List.take_add]
      congr 1
      omega
    have e4 : (text.drop k).drop (t.endIndex - k) = text.drop t.endIndex := by
      rw [List.drop_drop]
      congr 1
      omega
    rw [e1, e2, e3, e4, List.append_assoc]

theorem markerLoop_eq (cfg : Option ExpressionConfig) (pre ts : List EmotionTag)
    (h : ∀ t ∈ ts, t.startIndex ≤ t.endIndex) :
    markerLoop cfg ts (tagLengthSum pre) =
      (List.range' pre.length ts.length).filterMap (specMarkerAt cfg (pre ++ ts)) := by
  induction ts generalizing pre with
  | nil => simp [markerLoop]
  | cons t rest ih =>
    have hoff : (tagLengthSum pre : Int) + ((t.endIndex : Int) - (t.startIndex : Int)) =
        (tagLengthSum (pre ++ [t]) : Int) := by
      have := h t (by simp)
      simp only [tagLengthSum, List.map_append, List.sum_append, List.map_cons, List.map_nil,
        List.sum_cons, List.sum_nil, tagLength]
      omega
    have hrest := ih (pre ++ [t]) (fun x hx => h x (by simp [hx]))
    simp only [List.length_append, List.length_cons, List.length_nil, List.append_assoc,
      List.singleton_append] at hrest
    have hat : specMarkerAt cfg (pre ++ t :: rest) pre.length =
        (configGet cfg t.emotion).map fun files =>
          { position := (t.startIndex : Int) - (tagLengthSum pre : Int)
            emotion := t.emotion
            expressionFiles := files } := by
      have hget : (pre ++ t :: rest)[pre.length]? = some t := by
        rw [List.getElem?_append_right (Nat.le_refl _)]
        simp
      simp only [specMarkerAt, hget, List.take_left' rfl]
    rw [show pre.length + (0 + 1) = pre.length + 1 from rfl] at hrest
    simp only [markerLoop, List.length_cons, List.range'_succ, List.filterMap_cons, hat, hoff, hrest]
    cases configGet cfg t.emotion <;> simp

theorem spansFrom_start_le_end {k n : Nat} {ts : List EmotionTag} (h : SpansFrom k ts n) :
    ∀ t ∈ ts, t.startIndex ≤ t.endIndex := by
  induction ts generalizing k with
  | nil => simp
  | cons t rest ih =>
    obtain ⟨h1, h2, h3⟩ := h
    intro x hx
    rcases List.mem_cons.mp hx with rfl | hx
    · exact h2
    · exact ih h3 x hx

theorem parse_spansFrom (text : JSString) :
    SpansFrom 0 (parseEmotionTagsWithPosition text) text.length :=
  tagsFrom_spansFrom (parse_tagsFrom text) (Nat.zero_le _)

theorem markers_eq_spec (m : Mapper) (text : JSString) :
    (prepareTextForTTS m text).emotionMarkers =
      specMarkers m.expressionConfig (parseEmotionTagsWithPosition text) := by
  unfold prepareTextForTTS
  simp only
  split
  · rename_i h0
    simp [specMarkers, List.length_eq_zero.mp h0]
  · have := markerLoop_eq m.expressionConfig [] (parseEmotionTagsWithPosition text)
      (spansFrom_start_le_end (parse_spansFrom text))
    simp only [tagLengthSum, List.map_nil, List.sum_nil, Nat.cast_zero, List.length_nil,
      List.nil_append] at this
    simp only [specMarkers, List.range_eq_range']
    exact this

theorem text_eq_keepOutside (m : Mapper) (text : JSString) :
    (prepareTextForTTS m text).text =
      keepOutside (parseEmotionTagsWithPosition text) 0 text := by
  unfold prepareTextForTTS
  simp only
  split
  · rename_i h0
    rw [List.length_eq_zero.mp h0, keepOutside_none _ _ _ (fun j _ _ => by simp [inTag])]
  · simpa using removeTags_eq (parse_spansFrom text)

theorem keepOutside_sublist (tags : List EmotionTag) (i : Nat) (s : JSString) :
    List.Sublist (keepOutside tags i s) s := by
  induction s generalizing i with
  | nil => simp [keepOutside]
  | cons c cs ih =>
    simp only [keepOutside]
    split
    · exact List.Sublist.cons _ (ih _)
    · exact List.Sublist.cons₂ _ (ih _)

/-- The `k`-th tag `t` of a text splits the stripped text: before it stand the
code units outside tags of `text[0, t.startIndex)`, whose number is
`t.startIndex` minus the lengths of the earlier tags, and after it those of
`text[t.endIndex, ..)`. -/
theorem tag_offset_spec (text : JSString) (k : Nat) (t : EmotionTag)
    (hk : (parseEmotionTagsWithPosition text)[k]? = some t) :
    (keepOutside (parseEmotionTagsWithPosition text) 0 (text.take t.startIndex)).length +
        tagLengthSum ((parseEmotionTagsWithPosition text).take k) = t.startIndex ∧
      keepOutside (parseEmotionTagsWithPosition text) 0 text =
        keepOutside (parseEmotionTagsWithPosition text) 0 (text.take t.startIndex) ++
          keepOutside (parseEmotionTagsWithPosition text) t.endIndex (text.drop t.endIndex) := by
  have hsp := parse_spansFrom text
  generalize parseEmotionTagsWithPosition text = tags at hk hsp
  have hlt : k < tags.length := by
    rcases Nat.lt_or_ge k tags.length with h | h
    · exact h
    · rw [List.getElem?_eq_none h] at hk; simp at hk
  have hget : tags[k] = t := by
    rw [List.getElem?_eq_getElem hlt] at hk
    simpa using hk
  have hsplit : tags = tags.take k ++ t :: tags.drop (k + 1) := by
    rw [← hget, ← List.drop_eq_getElem_cons hlt, List.take_append_drop]
  have hmem : t ∈ tags := by rw [← hget]; exact List.getElem_mem _
  rw [hsplit] at hsp
  obtain ⟨h1, h2⟩ := spansFrom_split hsp
  have h3 := h2
  obtain ⟨-, h4, h5⟩ := h3
  have h6 := spansFrom_le h5
  have lT : (text.take t.startIndex).length = t.startIndex := by
    rw [List.length_take]; omega
  constructor
  · have e1 : keepOutside tags 0 (text.take t.startIndex) =
        keepOutside (tags.take k) 0 (text.take t.startIndex) := by
      apply keepOutside_congr
      intro j _ hj
      rw [lT] at hj
      conv_lhs => rw [hsplit]
      rw [inTag_append, spansFrom_not_inTag h2 (by omega)]
      simp
    rw [e1]
    simpa using keepOutside_length_spans h1 (text.take t.startIndex) (by rw [lT]; rfl)
  · have e2 : text.drop t.startIndex =
        (text.drop t.startIndex).take (t.endIndex - t.startIndex) ++ text.drop t.endIndex := by
      have : text.drop t.endIndex =
          (text.drop t.startIndex).drop (t.endIndex - t.startIndex) := by
        rw [List.drop_drop]; congr 1; omega
      rw [this, List.take_append_drop]
    have lB : ((text.drop t.startIndex).take (t.endIndex - t.startIndex)).length =
        t.endIndex - t.startIndex := by
      rw [List.length_take, List.length_drop]; omega
    have e3 : keepOutside tags t.startIndex
        ((text.drop t.startIndex).take (t.endIndex - t.startIndex)) = [] := by
      apply keepOutside_all
      intro j hj1 hj2
      rw [lB] at hj2
      simp only [inTag, List.any_eq_true, Bool.and_eq_true, decide_eq_true_eq]
      exact ⟨t, hmem, hj1, by omega⟩
    calc keepOutside tags 0 text
        = keepOutside tags 0 (text.take t.startIndex ++ text.drop t.startIndex) := by
          rw [List.take_append_drop]
      _ = keepOutside tags 0 (text.take t.startIndex) ++
            keepOutside tags t.startIndex (text.drop t.startIndex) := by
          rw [keepOutside_append, lT, Nat.zero_add]
      _ = keepOutside tags 0 (text.take t.startIndex) ++
            keepOutside tags t.startIndex
              ((text.drop t.startIndex).take (t.endIndex - t.startIndex) ++
                text.drop t.endIndex) := by
          rw [← e2]
      _ = _ := by
          rw [keepOutside_append, e3, lB, List.nil_append,
            show t.startIndex + (t.endIndex - t.startIndex) = t.endIndex by omega]

theorem mem_specMarkers {cfg : Option ExpressionConfig} {tags : List EmotionTag}
    {mk : EmotionMarker} (h : mk ∈ specMarkers cfg tags) :
    ∃ k t files, tags[k]? = some t ∧ configGet cfg t.emotion = some files ∧
      mk = { position := (t.startIndex : Int) - (tagLengthSum (tags.take k) : Int)
             emotion := t.emotion
             expressionFiles := files } := by
  simp only [specMarkers, List.mem_filterMap, List.mem_range] at h
  obtain ⟨k, -, hk⟩ := h
  unfold specMarkerAt at hk
  split at hk
  · simp at hk
  · rename_i t ht
    simp only [Option.map_eq_some'] at hk
    obtain ⟨files, hf, rfl⟩ := hk
    exact ⟨k, t, files, ht, hf, rfl⟩

theorem markerLoop_labels (cfg : Option ExpressionConfig) (ts : List EmotionTag) (offset : Int) :
    (markerLoop cfg ts offset).map (fun mk => (mk.emotion, mk.expressionFiles)) =
      ts.filterMap (fun t => (configGet cfg t.emotion).map (fun files => (t.emotion, files))) := by
  induction ts generalizing offset with
  | nil => simp [markerLoop]
  | cons t rest ih =>
    simp only [markerLoop, List.filterMap_cons]
    cases h : configGet cfg t.emotion with
    | none => simpa using ih _
    | some files => simpa using ih _

/-! ### Claims on `prepareTextForTTS` -/

/-- C1: the tags found by `parseEmotionTagsWithPosition` are left-to-right,
non-overlapping matches of `<` + one or more code units other than `>` + `>`;
the text returned by `prepareTextForTTS` is the original text with exactly the
code units inside those tags removed, the others kept in their order; its length
plus the sum of the tag lengths is the length of the original text. -/
theorem prepareTextForTTS_strips_tags (m : Mapper) (text : JSString) :
    TagsFrom text 0 (parseEmotionTagsWithPosition text) ∧
      (prepareTextForTTS m text).text =
        keepOutside (parseEmotionTagsWithPosition text) 0 text ∧
      List.Sublist (prepareTextForTTS m text).text text ∧
      (prepareTextForTTS m text).text.length +
        tagLengthSum (parseEmotionTagsWithPosition text) = text.length := by
  refine ⟨parse_tagsFrom text, text_eq_keepOutside m text, ?_, ?_⟩
  · rw [text_eq_keepOutside]
    exact keepOutside_sublist _ _ _
  · rw [text_eq_keepOutside]
    simpa using keepOutside_length_spans (parse_spansFrom text) text rfl

/-- C2: the marker list of `prepareTextForTTS` is the list of the tags whose
label has a truthy lookup, the `k`-th tag placed at its start offset minus the
total length of the tags before it (dropped ones included); for every tag that
number is the number of code units outside tags that precede the tag, and the
stripped text is those code units followed by the code units outside tags that
follow the tag. -/
theorem prepareTextForTTS_marker_position (m : Mapper) (text : JSString) :
    (prepareTextForTTS m text).emotionMarkers =
        specMarkers m.expressionConfig (parseEmotionTagsWithPosition text) ∧
      ∀ k t, (parseEmotionTagsWithPosition text)[k]? = some t →
        (t.startIndex : Int) - (tagLengthSum ((parseEmotionTagsWithPosition text).take k) : Int) =
            ((keepOutside (parseEmotionTagsWithPosition text) 0
              (text.take t.startIndex)).length : Int) ∧
          (prepareTextForTTS m text).text =
            keepOutside (parseEmotionTagsWithPosition text) 0 (text.take t.startIndex) ++
              keepOutside (parseEmotionTagsWithPosition text) t.endIndex
                (text.drop t.endIndex) := by
  refine ⟨markers_eq_spec m text, ?_⟩
  intro k t hk
  obtain ⟨h1, h2⟩ := tag_offset_spec text k t hk
  refine ⟨by omega, ?_⟩
  rw [text_eq_keepOutside]
  exact h2

/-- Witness of C2 on the specification's example: the tag `<开心>` starts at
offset 2 with no tag before it, and two code units precede it. -/
theorem prepareTextForTTS_marker_position_witness :
    (parseEmotionTagsWithPosition sampleText)[0]? = some sampleTag ∧
      ((sampleTag.startIndex : Int) -
          (tagLengthSum ((parseEmotionTagsWithPosition sampleText).take 0) : Int) =
            ((keepOutside (parseEmotionTagsWithPosition sampleText) 0
              (sampleText.take sampleTag.startIndex)).length : Int) ∧
        (prepareTextForTTS sampleMapper sampleText).text =
          keepOutside (parseEmotionTagsWithPosition sampleText) 0
              (sampleText.take sampleTag.startIndex) ++
            keepOutside (parseEmotionTagsWithPosition sampleText) sampleTag.endIndex
              (sampleText.drop sampleTag.endIndex)) :=
  ⟨by decide,
    (prepareTextForTTS_marker_position sampleMapper sampleText).2 0 sampleTag (by decide)⟩

/-- C3: every marker returned by `prepareTextForTTS` has a position between 0
and the length of the returned text. -/
theorem prepareTextForTTS_position_bounds (m : Mapper) (text : JSString) :
    ∀ mk ∈ (prepareTextForTTS m text).emotionMarkers,
      0 ≤ mk.position ∧ mk.position ≤ ((prepareTextForTTS m text).text.length : Int) := by
  intro mk hmk
  rw [markers_eq_spec] at hmk
  obtain ⟨k, t, files, hk, -, rfl⟩ := mem_specMarkers hmk
  obtain ⟨h1, h2⟩ := tag_offset_spec text k t hk
  rw [text_eq_keepOutside, h2]
  simp only [List.length_append]
  omega

/-- Witness of C3 on the specification's example: the marker at position 2 of
a stripped text of 8 code units. -/
theorem prepareTextForTTS_position_bounds_witness :
    sampleMarker ∈ (prepareTextForTTS sampleMapper sampleText).emotionMarkers ∧
      (0 ≤ sampleMarker.position ∧
        sampleMarker.position ≤ ((prepareTextForTTS sampleMapper sampleText).text.length : Int)) :=
  ⟨by decide,
    prepareTextForTTS_position_bounds sampleMapper sampleText sampleMarker (by decide)⟩

/-- The labels and values of the markers returned by `prepareTextForTTS` are
those of the tags whose label has a truthy lookup in the configuration, in order
of appearance: an own key (bound to the empty list included) or the name of an
inherited member; the other tags give no marker; with a null configuration there
is no marker; in every case the returned text has all tags removed. -/
theorem prepareTextForTTS_markers_of_lookup (m : Mapper) (text : JSString) :
    (prepareTextForTTS m text).emotionMarkers.map (fun mk => (mk.emotion, mk.expressionFiles)) =
        (parseEmotionTagsWithPosition text).filterMap
          (fun t => (configGet m.expressionConfig t.emotion).map (fun files => (t.emotion, files))) ∧
      (prepareTextForTTS { expressionConfig := none, defaultExpression := m.defaultExpression }
        text).emotionMarkers = [] ∧
      (prepareTextForTTS { expressionConfig := none, defaultExpression := m.defaultExpression }
        text).text = keepOutside (parseEmotionTagsWithPosition text) 0 text ∧
      (prepareTextForTTS m text).text = keepOutside (parseEmotionTagsWithPosition text) 0 text := by
  have hmain : ∀ m : Mapper,
      (prepareTextForTTS m text).emotionMarkers.map (fun mk => (mk.emotion, mk.expressionFiles)) =
        (parseEmotionTagsWithPosition text).filterMap
          (fun t => (configGet m.expressionConfig t.emotion).map
            (fun files => (t.emotion, files))) := by
    intro m
    unfold prepareTextForTTS
    simp only
    split
    · rename_i h0
      simp [List.length_eq_zero.mp h0]
    · exact markerLoop_labels _ _ _
  refine ⟨hmain m, ?_, text_eq_keepOutside _ text, text_eq_keepOutside m text⟩
  have := hmain { expressionConfig := none, defaultExpression := m.defaultExpression }
  have hnil : (parseEmotionTagsWithPosition text).filterMap
      (fun t => (configGet none t.emotion).map (fun files => (t.emotion, files))) = [] := by
    simp [configGet]
  rw [hnil] at this
  exact List.map_eq_nil_iff.mp this

/-- C4 (failing input): `constructor` is not a key of the configuration
`{开心: [expressions/happy.exp3.json]}`, yet `prepareTextForTTS("a<constructor>b")`
returns, with the text `ab`, a marker for that label at position 1, because the
lookup finds the inherited function `Object`; the marker carries that function
in place of a candidate list. -/
theorem prepareTextForTTS_inherited_label :
    (sampleMapper.expressionConfig.getD []).lookup (utf16 "constructor") = none ∧
      prepareTextForTTS sampleMapper inheritedLabelText =
        { text := utf16 "ab", emotionMarkers := [inheritedLabelMarker] } ∧
      inheritedLabelMarker.emotion = utf16 "constructor" ∧
      inheritedLabelMarker.expressionFiles = ConfigValue.inherited (some 1) := by
  decide

/-! ## Theorems: reveal tick -/

theorem windowScan_some {position : Int} {markers : List EmotionMarker} {n i : Nat}
    {marker : EmotionMarker} (h : windowScan position markers n = some (i, marker)) :
    i < n ∧ markers[i]? = some marker ∧ inWindow position marker = true ∧
      ∀ j mk, i < j → j < n → markers[j]? = some mk → inWindow position mk = false := by
  induction n with
  | zero => simp [windowScan] at h
  | succ n ih =>
    simp only [windowScan] at h
    split at h
    · rename_i mk hmk
      split at h
      · rename_i hw
        simp only [Option.some.injEq, Prod.mk.injEq] at h
        obtain ⟨rfl, rfl⟩ := h
        exact ⟨Nat.lt_succ_self _, hmk, hw, fun j mk' h1 h2 _ => by omega⟩
      · rename_i hw
        obtain ⟨h1, h2, h3, h4⟩ := ih h
        refine ⟨by omega, h2, h3, fun j mk' hj1 hj2 hj3 => ?_⟩
        rcases Nat.lt_or_ge j n with hlt | hge
        · exact h4 j mk' hj1 hlt hj3
        · have : j = n := by omega
          subst this
          rw [hmk] at hj3
          simp only [Option.some.injEq] at hj3
          subst hj3
          simpa using hw
    · rename_i hnone
      obtain ⟨h1, h2, h3, h4⟩ := ih h
      refine ⟨by omega, h2, h3, fun j mk' hj1 hj2 hj3 => ?_⟩
      rcases Nat.lt_or_ge j n with hlt | hge
      · exact h4 j mk' hj1 hlt hj3
      · have : j = n := by omega
        subst this
        rw [hnone] at hj3
        simp at hj3

theorem windowScan_none {position : Int} {markers : List EmotionMarker} {n : Nat}
    (h : windowScan position markers n = none) :
    ∀ j mk, j < n → markers[j]? = some mk → inWindow position mk = false := by
  induction n with
  | zero => intro j mk hj; omega
  | succ n ih =>
    simp only [windowScan] at h
    intro j mk hj hmk
    split at h
    · rename_i mk0 hmk0
      split at h
      · simp at h
      · rename_i hw
        rcases Nat.lt_or_ge j n with hlt | hge
        · exact ih h j mk hlt hmk
        · have : j = n := by omega
          subst this
          rw [hmk0] at hmk
          simp only [Option.some.injEq] at hmk
          subst hmk
          simpa using hw
    · rename_i hnone
      rcases Nat.lt_or_ge j n with hlt | hge
      · exact ih h j mk hlt hmk
      · have : j = n := by omega
        subst this
        rw [hnone] at hmk
        simp at hmk

theorem windowCheck_perm (position : Int) (markers : List EmotionMarker) :
    List.Perm ((windowCheck position markers).fired ++ (windowCheck position markers).markers)
      markers := by
  unfold windowCheck
  split
  · rename_i i marker h
    obtain ⟨h1, h2, -, -⟩ := windowScan_some h
    obtain ⟨hlt, hget⟩ := List.getElem?_eq_some.mp h2
    have hsplit : markers = markers.take i ++ marker :: markers.drop (i + 1) := by
      rw [← hget, ← List.drop_eq_getElem_cons hlt, List.take_append_drop]
    simp only [List.singleton_append]
    rw [List.eraseIdx_eq_take_drop_succ]
    conv_rhs => rw [hsplit]
    exact List.perm_middle.symm
  · simp

theorem windowCheck_nil (position : Int) :
    windowCheck position [] = { fired := [], markers := [] } := by
  simp [windowCheck, windowScan]

/-- At the end of the text a call fires the hit of the window check, then every
marker the window check left, and empties the array. -/
theorem trigger_flush (position textLength : Int) (markers : List EmotionMarker)
    (h : position ≥ textLength - 1) :
    (triggerEmotionByTextPosition position textLength markers).markers = [] ∧
      (triggerEmotionByTextPosition position textLength markers).fired =
        (windowCheck position markers).fired ++ (windowCheck position markers).markers := by
  unfold triggerEmotionByTextPosition
  split
  · rename_i h0
    have := List.length_eq_zero.mp h0
    subst this
    simp [windowCheck_nil]
  · simp only
    split
    · simp
    · rename_i hn
      have : (windowCheck position markers).markers = [] := by
        rcases hm : (windowCheck position markers).markers with _ | ⟨a, l⟩
        · rfl
        · exfalso
          apply hn
          exact ⟨h, by simp [hm]⟩
      simp [this]

theorem trigger_perm (position textLength : Int) (markers : List EmotionMarker) :
    List.Perm
      ((triggerEmotionByTextPosition position textLength markers).fired ++
        (triggerEmotionByTextPosition position textLength markers).markers) markers := by
  unfold triggerEmotionByTextPosition
  split
  · simp
  · simp only
    split
    · simpa using windowCheck_perm position markers
    · exact windowCheck_perm position markers

/-- C5: end-of-text flush. When `position ≥ textLength - 1`, a call of
`triggerEmotionByTextPosition` fires the hit of the window check followed by
every marker still pending after the window check, in list order, so that every
marker of the list fires exactly once, and the marker list is empty on return. -/
theorem triggerEmotionByTextPosition_flush (position textLength : Int)
    (markers : List EmotionMarker) (h : position ≥ textLength - 1) :
    (triggerEmotionByTextPosition position textLength markers).markers = [] ∧
      (triggerEmotionByTextPosition position textLength markers).fired =
        (windowCheck position markers).fired ++ (windowCheck position markers).markers ∧
      List.Perm (triggerEmotionByTextPosition position textLength markers).fired markers := by
  obtain ⟨h1, h2⟩ := trigger_flush position textLength markers h
  refine ⟨h1, h2, ?_⟩
  have := trigger_perm position textLength markers
  rw [h1] at this
  simpa using this

/-- Witness of C5: at position 9 of a text of length 10 the marker at 9 fires in
the window and the markers at 2 and 5 are flushed after it. -/
theorem triggerEmotionByTextPosition_flush_witness :
    ((9 : Int) ≥ 10 - 1) ∧
      ((triggerEmotionByTextPosition 9 10 sampleMarkers).markers = [] ∧
        (triggerEmotionByTextPosition 9 10 sampleMarkers).fired =
          (windowCheck 9 sampleMarkers).fired ++ (windowCheck 9 sampleMarkers).markers ∧
        List.Perm (triggerEmotionByTextPosition 9 10 sampleMarkers).fired sampleMarkers) :=
  ⟨by decide, triggerEmotionByTextPosition_flush 9 10 sampleMarkers (by decide)⟩

/-- C7: window trigger. When `position < textLength - 1`, a call of
`triggerEmotionByTextPosition` fires at most one marker: if some marker has
`marker.position ≤ position ≤ marker.position + 2`, the one of them with the
greatest index fires and is removed, the others staying in order; if none has,
nothing fires and the list is unchanged. -/
theorem triggerEmotionByTextPosition_window (position textLength : Int)
    (markers : List EmotionMarker) (h : position < textLength - 1) :
    ((∃ mk ∈ markers, inWindow position mk = true) →
      ∃ i marker, markers[i]? = some marker ∧ inWindow position marker = true ∧
        (∀ j mk, i < j → markers[j]? = some mk → inWindow position mk = false) ∧
        triggerEmotionByTextPosition position textLength markers =
          { fired := [marker], markers := markers.eraseIdx i }) ∧
      ((∀ mk ∈ markers, inWindow position mk = false) →
        triggerEmotionByTextPosition position textLength markers =
          { fired := [], markers := markers }) := by
  have hno : ¬ (position ≥ textLength - 1) := by omega
  have hres : triggerEmotionByTextPosition position textLength markers =
      windowCheck position markers := by
    unfold triggerEmotionByTextPosition
    split
    · rename_i h0
      have := List.length_eq_zero.mp h0
      subst this
      simp [windowCheck_nil]
    · simp only
      rw [if_neg (fun hc => hno hc.1)]
  rw [hres]
  constructor
  · rintro ⟨mk, hmem, hw⟩
    unfold windowCheck
    split
    · rename_i i marker hs
      obtain ⟨h1, h2, h3, h4⟩ := windowScan_some hs
      refine ⟨i, marker, h2, h3, fun j mk' hj hmk' => ?_, rfl⟩
      obtain ⟨hlt, -⟩ := List.getElem?_eq_some.mp hmk'
      exact h4 j mk' hj hlt hmk'
    · rename_i hs
      exfalso
      obtain ⟨n, hn⟩ := List.getElem?_of_mem hmem
      obtain ⟨hlt, -⟩ := List.getElem?_eq_some.mp hn
      have := windowScan_none hs n mk hlt hn
      rw [hw] at this
      simp at this
  · intro hall
    unfold windowCheck
    split
    · rename_i i marker hs
      exfalso
      obtain ⟨h1, h2, h3, h4⟩ := windowScan_some hs
      obtain ⟨hlt, hget⟩ := List.getElem?_eq_some.mp h2
      have := hall marker (by rw [← hget]; exact List.getElem_mem _)
      rw [h3] at this
      simp at this
    · rfl

/-- Witness of C7: at position 6 of a text of length 10 the marker at 5 (index
1) fires and the markers at 2 and 9 stay. -/
theorem triggerEmotionByTextPosition_window_witness :
    ((6 : Int) < 10 - 1) ∧ (∃ mk ∈ sampleMarkers, inWindow 6 mk = true) ∧
      (∃ i marker, sampleMarkers[i]? = some marker ∧ inWindow 6 marker = true ∧
        (∀ j mk, i < j → sampleMarkers[j]? = some mk → inWindow 6 mk = false) ∧
        triggerEmotionByTextPosition 6 10 sampleMarkers =
          { fired := [marker], markers := sampleMarkers.eraseIdx i }) :=
  ⟨by decide, by decide,
    (triggerEmotionByTextPosition_window 6 10 sampleMarkers (by decide)).1 (by decide)⟩

theorem animateText_perm (segmentLength : Nat) (ticks charDisplayIndex : Nat)
    (markers : List EmotionMarker) :
    List.Perm
      ((animateText segmentLength ticks charDisplayIndex markers).fired ++
        (animateText segmentLength ticks charDisplayIndex markers).markers) markers := by
  induction ticks generalizing charDisplayIndex markers with
  | zero => simp [animateText]
  | succ n ih =>
    simp only [animateText]
    split
    · simp only [List.append_assoc]
      split
      · exact (List.Perm.append_left _ (ih _ _)).trans (trigger_perm _ _ _)
      · simpa using ih (charDisplayIndex + 1) markers
    · simp

theorem animateText_nil (segmentLength ticks charDisplayIndex : Nat) :
    animateText segmentLength ticks charDisplayIndex [] = { fired := [], markers := [] } := by
  induction ticks generalizing charDisplayIndex with
  | zero => simp [animateText]
  | succ n ih =>
    simp only [animateText]
    split
    · simp [ih]
    · rfl

theorem animateText_empties (segmentLength : Nat) (ticks charDisplayIndex : Nat)
    (markers : List EmotionMarker) (h1 : charDisplayIndex < segmentLength)
    (h2 : segmentLength ≤ charDisplayIndex + ticks) :
    (animateText segmentLength ticks charDisplayIndex markers).markers = [] := by
  induction ticks generalizing charDisplayIndex markers with
  | zero => omega
  | succ n ih =>
    simp only [animateText, if_pos h1]
    rcases Nat.lt_or_ge (charDisplayIndex + 1) segmentLength with hlt | hge
    · exact ih _ _ hlt (by omega)
    · have hstep : (if markers.length > 0 then
          triggerEmotionByTextPosition ((charDisplayIndex + 1 : Nat) : Int) (segmentLength : Int)
            markers
          else { fired := [], markers := markers }).markers = [] := by
        split
        · exact (trigger_flush _ _ _ (by omega)).1
        · rename_i h0
          simpa using h0
      rw [hstep, animateText_nil]

/-- Frames beyond the `segmentLength`-th reveal nothing: any number of frames
that suffices to reach the end of the text gives the same result. -/
theorem animateText_fuel (segmentLength : Nat) (t1 t2 charDisplayIndex : Nat)
    (markers : List EmotionMarker) (h1 : segmentLength ≤ charDisplayIndex + t1)
    (h2 : segmentLength ≤ charDisplayIndex + t2) :
    animateText segmentLength t1 charDisplayIndex markers =
      animateText segmentLength t2 charDisplayIndex markers := by
  induction t1 generalizing t2 charDisplayIndex markers with
  | zero =>
    cases t2 with
    | zero => rfl
    | succ n => simp only [animateText]; rw [if_neg (by omega)]
  | succ n ih =>
    cases t2 with
    | zero => simp only [animateText]; rw [if_neg (by omega)]
    | succ k =>
      simp only [animateText]
      split
      · rw [ih k _ _ (by omega) (by omega)]
      · rfl

/-- When the stripped text is not empty and the reveal runs to its end (one
frame for every character), it fires every marker exactly once and leaves no
marker pending. -/
theorem revealSegment_fires_all (m : Mapper) (segmentText : JSString)
    (h : 0 < (prepareTextForTTS m segmentText).text.length) :
    (revealSegment m segmentText).markers = [] ∧
      List.Perm (revealSegment m segmentText).fired
        (prepareTextForTTS m segmentText).emotionMarkers := by
  unfold revealSegment
  simp only
  have h1 := animateText_empties (prepareTextForTTS m segmentText).text.length
    (prepareTextForTTS m segmentText).text.length 0
    (prepareTextForTTS m segmentText).emotionMarkers h (by omega)
  refine ⟨h1, ?_⟩
  have := animateText_perm (prepareTextForTTS m segmentText).text.length
    (prepareTextForTTS m segmentText).text.length 0
    (prepareTextForTTS m segmentText).emotionMarkers
  rw [h1] at this
  simpa using this

/-- C6 (failing input): the segment `<开心>` under the configuration
`开心 ↦ [expressions/happy.exp3.json]` is stripped to the empty text with one
marker; the reveal loop then has no character to reveal, whatever the number of
frames, so the marker never fires and stays pending. -/
theorem revealSegment_tag_only_keeps_marker :
    (prepareTextForTTS sampleMapper tagOnlyText).text = [] ∧
      (prepareTextForTTS sampleMapper tagOnlyText).emotionMarkers = [tagOnlyMarker] ∧
      revealSegment sampleMapper tagOnlyText = { fired := [], markers := [tagOnlyMarker] } ∧
      ∀ ticks, animateText 0 ticks 0 [tagOnlyMarker] =
        { fired := [], markers := [tagOnlyMarker] } := by
  refine ⟨by decide, by decide, by decide, ?_⟩
  intro ticks
  cases ticks <;> simp [animateText]

/-! ## Theorems: expression resolver -/

theorem roundHalfEven_le (q : ℚ) : (roundHalfEven q : ℚ) ≤ q + 1 / 2 := by
  unfold roundHalfEven
  have h1 := Int.floor_le q
  have h2 := Int.lt_floor_add_one q
  split
  · linarith
  · split
    · push_cast; linarith
    · split
      · linarith
      · push_cast; linarith

theorem roundHalfEven_nonneg (q : ℚ) (h : 0 ≤ q) : 0 ≤ roundHalfEven q := by
  unfold roundHalfEven
  have h0 : 0 ≤ ⌊q⌋ := Int.floor_nonneg.mpr h
  split
  · exact h0
  · split
    · omega
    · split
      · exact h0
      · omega

theorem roundDouble_nonneg (x : ℚ) (h : 0 ≤ x) : 0 ≤ roundDouble x := by
  unfold roundDouble
  split
  · exact le_refl _
  · apply mul_nonneg
    · exact_mod_cast roundHalfEven_nonneg _ (div_nonneg h (by positivity))
    · positivity

/-- The double nearest to a product of at most `n * (1 - 2^-53)` is below `n`:
rounding adds at most half a spacing, which is at most `2^-53` times the
product. -/
theorem roundDouble_lt (x : ℚ) (n : Nat) (hn : 0 < n) (h0 : 0 ≤ x)
    (hx : x ≤ (n : ℚ) * (1 - 1 / 2 ^ 53)) : roundDouble x < (n : ℚ) := by
  have hnq : (1 : ℚ) ≤ (n : ℚ) := by exact_mod_cast hn
  unfold roundDouble
  split
  · linarith
  · rename_i hne
    have hpos : 0 < x := lt_of_le_of_ne h0 (Ne.symm hne)
    rw [abs_of_pos hpos]
    set k := max (Int.log 2 x - 52) (-1074) with hk
    have hkpos : (0 : ℚ) < (2 : ℚ) ^ k := by positivity
    have hround := roundHalfEven_le (x / (2 : ℚ) ^ k)
    have hle : (roundHalfEven (x / (2 : ℚ) ^ k) : ℚ) * (2 : ℚ) ^ k ≤ x + (2 : ℚ) ^ k / 2 := by
      have := mul_le_mul_of_nonneg_right hround hkpos.le
      rw [add_mul, div_mul_cancel₀ _ hkpos.ne'] at this
      linarith
    have hlog : (2 : ℚ) ^ Int.log 2 x ≤ x := Int.zpow_log_le_self (by norm_num) hpos
    have hlog2 : x < (2 : ℚ) ^ (Int.log 2 x + 1) := Int.lt_zpow_succ_log_self (by norm_num) x
    rcases le_total (-1074) (Int.log 2 x - 52) with hc | hc
    · have hk2 : k = Int.log 2 x - 52 := by rw [hk]; exact max_eq_left hc
      have h2 : (2 : ℚ) ^ k = (2 : ℚ) ^ Int.log 2 x / 2 ^ 52 := by
        rw [hk2, zpow_sub₀ (by norm_num)]
        norm_num
      have : (2 : ℚ) ^ k / 2 ≤ x / 2 ^ 53 := by
        rw [h2]
        have : (2 : ℚ) ^ Int.log 2 x / 2 ^ 52 / 2 = (2 : ℚ) ^ Int.log 2 x / 2 ^ 53 := by ring
        rw [this]
        exact div_le_div_of_nonneg_right hlog (by positivity)
      nlinarith
    · have hk2 : k = -1074 := by rw [hk]; exact max_eq_right hc
      have hx2 : x < (2 : ℚ) ^ (-1021 : ℤ) := by
        refine lt_of_lt_of_le hlog2 ?_
        exact zpow_le_zpow_right₀ (by norm_num) (by omega)
      have h3 : (2 : ℚ) ^ (-1021 : ℤ) ≤ 1 / 4 := by
        calc (2 : ℚ) ^ (-1021 : ℤ) ≤ (2 : ℚ) ^ (-2 : ℤ) :=
              zpow_le_zpow_right₀ (by norm_num) (by omega)
          _ = 1 / 4 := by norm_num
      have h4 : (2 : ℚ) ^ k ≤ 1 / 4 := by
        rw [hk2]
        calc (2 : ℚ) ^ (-1074 : ℤ) ≤ (2 : ℚ) ^ (-2 : ℤ) :=
              zpow_le_zpow_right₀ (by norm_num) (by omega)
          _ = 1 / 4 := by norm_num
      have hxq : x < 1 / 4 := lt_of_lt_of_le hx2 h3
      clear hx2 h3 hlog hlog2
      have : (roundHalfEven (x / (2 : ℚ) ^ k) : ℚ) * (2 : ℚ) ^ k < 1 := by linarith
      exact lt_of_lt_of_le this hnq

/-- A double below 1, written `mant / 2^k` with a significand below `2^53`, is at
most `1 - 2^-53`. -/
theorem unit_double_le (r : ℚ) (mant k : Nat) (hr : r = (mant : ℚ) / 2 ^ k) (hm : mant < 2 ^ 53)
    (h1 : r < 1) : 0 ≤ r ∧ r ≤ 1 - 1 / 2 ^ 53 := by
  have hk : (0 : ℚ) < 2 ^ k := by positivity
  constructor
  · rw [hr]; positivity
  · have hlt : (mant : ℚ) < 2 ^ k := by
      rw [hr, div_lt_one hk] at h1
      exact h1
    have hnat : mant < 2 ^ k := by exact_mod_cast hlt
    rcases Nat.lt_or_ge k 54 with hk54 | hk54
    · have hle : mant + 1 ≤ 2 ^ k := hnat
      have hpow : (2 : ℚ) ^ 53 = 2 ^ k * 2 ^ (53 - k) := by
        rw [← pow_add]
        congr 1
        omega
      have h2 : (1 : ℚ) ≤ 2 ^ (53 - k) := one_le_pow₀ (by norm_num)
      have hleq : (mant : ℚ) + 1 ≤ 2 ^ k := by exact_mod_cast hle
      rw [hr, div_le_iff₀ hk]
      have h53 : (0 : ℚ) < 2 ^ 53 := by positivity
      have h3 : (1 : ℚ) / 2 ^ 53 * 2 ^ k ≤ 1 := by
        rw [hpow, div_mul_eq_mul_div, one_mul, div_le_one (by positivity)]
        nlinarith
      nlinarith
    · have hpow : (2 : ℚ) ^ k = 2 ^ 53 * 2 ^ (k - 53) := by
        rw [← pow_add]
        congr 1
        omega
      have h2 : (2 : ℚ) ≤ 2 ^ (k - 53) := by
        calc (2 : ℚ) = 2 ^ 1 := by norm_num
          _ ≤ 2 ^ (k - 53) := pow_le_pow_right₀ (by norm_num) (by omega)
      have hmq : (mant : ℚ) < 2 ^ 53 := by exact_mod_cast hm
      rw [hr, div_le_iff₀ hk, hpow]
      have h53 : (0 : ℚ) < 2 ^ 53 := by positivity
      have h4 : (1 - 1 / 2 ^ 53 : ℚ) * (2 ^ 53 * 2 ^ (k - 53)) =
          (2 ^ 53 - 1) * 2 ^ (k - 53) := by
        field_simp
        ring
      rw [h4]
      nlinarith

theorem randomIndex_bounds (r : ℚ) (n mant k : Nat) (hr : r = (mant : ℚ) / 2 ^ k)
    (hm : mant < 2 ^ 53) (h1 : r < 1) (hn : 0 < n) :
    0 ≤ randomIndex r n ∧ randomIndex r n < (n : Int) := by
  obtain ⟨h0, hle⟩ := unit_double_le r mant k hr hm h1
  have hnq : (0 : ℚ) < (n : ℚ) := by exact_mod_cast hn
  have hx0 : 0 ≤ r * (n : ℚ) := mul_nonneg h0 hnq.le
  have hx : r * (n : ℚ) ≤ (n : ℚ) * (1 - 1 / 2 ^ 53) := by nlinarith
  unfold randomIndex
  constructor
  · exact Int.floor_nonneg.mpr (roundDouble_nonneg _ hx0)
  · rw [Int.floor_lt]
    exact_mod_cast roundDouble_lt _ n hn hx0 hx

/-- For the double nearest to one third and three candidates, the exact product
is `1 - 2^-54`, which lies half-way between two doubles and is rounded to 1: the
index is 1, not 0. -/
theorem randomIndex_oneThird : randomIndex oneThird 3 = 1 := by
  have hlog : Int.log 2 |(6004799503160661 / 2 ^ 54 : ℚ) * ((3 : ℕ) : ℚ)| = -1 := by
    rw [abs_of_pos (by norm_num)]
    apply le_antisymm
    · have : Int.log 2 ((6004799503160661 / 2 ^ 54 : ℚ) * ((3 : ℕ) : ℚ)) < 0 := by
        rw [← Int.lt_zpow_iff_log_lt (by norm_num) (by norm_num)]
        norm_num
      omega
    · rw [← Int.zpow_le_iff_le_log (by norm_num) (by norm_num)]
      norm_num
  unfold randomIndex roundDouble oneThird
  rw [if_neg (by norm_num), hlog]
  norm_num [roundHalfEven]

theorem arrayGet_of_bounds (array : List JSString) (index : Int) (h0 : 0 ≤ index)
    (h1 : index < (array.length : Int)) :
    ∃ file ∈ array, arrayGet array index = some file := by
  have hlt : index.toNat < array.length := by omega
  refine ⟨array[index.toNat], List.getElem_mem _, ?_⟩
  unfold arrayGet
  rw [if_neg (by omega), List.getElem?_eq_getElem hlt]

theorem configGet_of_lookup (cfg : ExpressionConfig) (key : JSString) (files : List JSString)
    (h : cfg.lookup key = some files) :
    configGet (some cfg) key = some (ConfigValue.files files) := by
  simp [configGet, h]

/-- C8: when emotion `e` is a key bound to a non-empty candidate list, for every
outcome `r` of the random source, a double in `[0, 1)` (written `mant / 2^k`
with a significand below `2^53`), the index `floor(r * n)`, the product rounded
to the nearest double, lies in `0..n-1`, and `triggerExpressionByEmotion(e)`
plays the candidate at that index, a member of the list, and reports it in the
`EXPRESSION_TRIGGERED` event; with a single candidate that candidate is the one
played. -/
theorem triggerExpressionByEmotion_plays_candidate (m : Mapper) (cfg : ExpressionConfig)
    (r : ℚ) (mant k : Nat) (e : JSString) (files : List JSString)
    (hcfg : m.expressionConfig = some cfg) (hfiles : cfg.lookup e = some files)
    (hne : files ≠ []) (hr : r = (mant : ℚ) / 2 ^ k) (hm : mant < 2 ^ 53) (h1 : r < 1) :
    0 ≤ randomIndex r files.length ∧ randomIndex r files.length < (files.length : Int) ∧
      ∃ file ∈ files, arrayGet files (randomIndex r files.length) = some file ∧
        triggerExpressionByEmotion m r e =
          (some (extractExpressionNameFromPath (some file)),
            [Effect.playExpressionFile (some file),
             Effect.expressionTriggered e (extractExpressionNameFromPath (some file))
               (some file)]) ∧
        ∀ f, files = [f] → file = f := by
  have hn : 0 < files.length := List.length_pos.mpr hne
  obtain ⟨hb0, hb1⟩ := randomIndex_bounds r files.length mant k hr hm h1 hn
  obtain ⟨file, hmem, hget⟩ := arrayGet_of_bounds files _ hb0 hb1
  refine ⟨hb0, hb1, file, hmem, hget, ?_, ?_⟩
  · unfold triggerExpressionByEmotion
    rw [hcfg]
    simp only
    rw [configGet_of_lookup cfg e files hfiles]
    cases files with
    | nil => exact absurd rfl hne
    | cons f fs =>
      simp only
      rw [hget]
  · intro f hf
    subst hf
    simpa using hmem

/-- Witness of C8: three candidates and the outcome `0.3333333333333333`, for
which the rounded product gives index 1 and the second candidate is played. -/
theorem triggerExpressionByEmotion_plays_candidate_witness :
    randomIndex oneThird threeHappyFiles.length = 1 ∧
      (0 ≤ randomIndex oneThird threeHappyFiles.length ∧
        randomIndex oneThird threeHappyFiles.length < (threeHappyFiles.length : Int) ∧
        ∃ file ∈ threeHappyFiles,
          arrayGet threeHappyFiles (randomIndex oneThird threeHappyFiles.length) = some file ∧
            triggerExpressionByEmotion threeHappyMapper oneThird (utf16 "开心") =
              (some (extractExpressionNameFromPath (some file)),
                [Effect.playExpressionFile (some file),
                 Effect.expressionTriggered (utf16 "开心")
                   (extractExpressionNameFromPath (some file)) (some file)]) ∧
            ∀ f, threeHappyFiles = [f] → file = f) :=
  ⟨randomIndex_oneThird,
    triggerExpressionByEmotion_plays_candidate threeHappyMapper
      [(utf16 "开心", threeHappyFiles)] oneThird 6004799503160661 54 (utf16 "开心")
      threeHappyFiles rfl (by decide) (by decide) (by norm_num [oneThird]) (by norm_num)
      (by norm_num [oneThird])⟩

theorem playDefaultExpression_of_default (m : Mapper) (f : Option JSString)
    (hd : m.defaultExpression ≠ [])
    (hb : firstBound m.expressionConfig m.defaultExpression = some f) :
    defaultExpressionChoice m = some (m.defaultExpression, f) := by
  unfold defaultExpressionChoice
  have : m.defaultExpression.isEmpty = false := by
    cases hm : m.defaultExpression with
    | nil => exact absurd hm hd
    | cons a l => rfl
  simp [this, hb]

/-- When the lookup of emotion `e` is falsy, an empty array, an inherited
function of `length` 0 or the inherited object `__proto__`,
`triggerExpressionByEmotion(e)` returns null and makes exactly the calls of
`playDefaultExpression`, whatever the random outcome; when the configured
`defaultExpression` is a key with a non-empty binding, the file played is the
first file of that binding. -/
theorem triggerExpressionByEmotion_unbound (m : Mapper) (r : ℚ) (e : JSString)
    (h : configGet m.expressionConfig e = none ∨
      configGet m.expressionConfig e = some (ConfigValue.files []) ∨
      configGet m.expressionConfig e = some (ConfigValue.inherited (some 0)) ∨
      configGet m.expressionConfig e = some (ConfigValue.inherited none)) :
    triggerExpressionByEmotion m r e = (none, playDefaultExpression m) ∧
      ∀ f fs, m.defaultExpression ≠ [] →
        configGet m.expressionConfig m.defaultExpression = some (ConfigValue.files (f :: fs)) →
        triggerExpressionByEmotion m r e = (none, [Effect.playExpressionFile (some f)]) := by
  have hmain : triggerExpressionByEmotion m r e = (none, playDefaultExpression m) := by
    unfold triggerExpressionByEmotion
    cases hc : m.expressionConfig with
    | none => rfl
    | some cfg =>
      simp only
      rw [hc] at h
      rcases h with h | h | h | h <;> rw [h]
  refine ⟨hmain, ?_⟩
  intro f fs hd hb
  rw [hmain]
  have hfb : firstBound m.expressionConfig m.defaultExpression = some (some f) := by
    simp [firstBound, hb]
  simp [playDefaultExpression, playDefaultExpression_of_default m (some f) hd hfb]

/-- An instance of `triggerExpressionByEmotion_unbound`: `生气` bound to the
empty list, the default `表情1` bound. -/
theorem triggerExpressionByEmotion_unbound_witness :
    configGet unboundMapper.expressionConfig (utf16 "生气") = some (ConfigValue.files []) ∧
      triggerExpressionByEmotion unboundMapper (1 / 2) (utf16 "生气") =
        (none, playDefaultExpression unboundMapper) ∧
      triggerExpressionByEmotion unboundMapper (1 / 2) (utf16 "生气") =
        (none, [Effect.playExpressionFile (some (utf16 "expressions/expression1.exp3.json"))]) :=
  ⟨by decide,
    (triggerExpressionByEmotion_unbound unboundMapper (1 / 2) (utf16 "生气")
      (Or.inr (Or.inl (by decide)))).1,
    (triggerExpressionByEmotion_unbound unboundMapper (1 / 2) (utf16 "生气")
      (Or.inr (Or.inl (by decide)))).2
      (utf16 "expressions/expression1.exp3.json") [] (by decide) (by decide)⟩

/-- C9 (failing input): `constructor` is not a key of the configuration
`{生气: [], 表情1: [expressions/expression1.exp3.json]}`, yet
`triggerExpressionByEmotion("constructor")` takes the bound branch, because the
lookup finds the inherited function `Object`, whose `length` is 1: whatever the
random outcome it calls `playExpressionFile(undefined)`, emits
`EXPRESSION_TRIGGERED` and returns `未知表情`, instead of returning null after the
calls of `playDefaultExpression`. -/
theorem triggerExpressionByEmotion_inherited_name :
    (unboundMapper.expressionConfig.getD []).lookup (utf16 "constructor") = none ∧
      (∀ r : ℚ, triggerExpressionByEmotion unboundMapper r (utf16 "constructor") =
        (some (utf16 "未知表情"),
          [Effect.playExpressionFile none,
           Effect.expressionTriggered (utf16 "constructor") (utf16 "未知表情") none])) ∧
      playDefaultExpression unboundMapper =
        [Effect.playExpressionFile (some (utf16 "expressions/expression1.exp3.json"))] := by
  refine ⟨by decide, ?_, by decide⟩
  intro r
  have hget : configGet (some [(utf16 "生气", []),
      (utf16 "表情1", [utf16 "expressions/expression1.exp3.json"])]) (utf16 "constructor") =
      some (ConfigValue.inherited (some 1)) := by decide
  have hname : extractExpressionNameFromPath none = utf16 "未知表情" := rfl
  unfold triggerExpressionByEmotion unboundMapper
  simp only
  rw [hget]
  simp only [hname]

theorem firstOtherExpression_not_reserved (cfg : ExpressionConfig) (key file : JSString)
    (h : firstOtherExpression cfg = some (key, file)) : key ∉ reservedLabels := by
  induction cfg with
  | nil => simp [firstOtherExpression] at h
  | cons entry rest ih =>
    obtain ⟨name, files⟩ := entry
    simp only [firstOtherExpression] at h
    split at h
    · exact ih h
    · split at h
      · rename_i hcond
        simp only [Option.some.injEq, Prod.mk.injEq] at h
        obtain ⟨rfl, -⟩ := h
        obtain ⟨c1, c2, c3, c4, c5, c6, -⟩ := hcond
        simp only [reservedLabels, List.mem_cons, List.mem_singleton, List.not_mem_nil,
          or_false, not_or]
        exact ⟨c1, c2, c3, c4, c5, c6⟩
      · exact ih h

/-- C10 (counterexample): with `defaultExpression` set to `开心` and `开心`
bound to a file, `playDefaultExpression` plays the file of the reserved label
`开心`. -/
theorem playDefaultExpression_reserved_default :
    defaultExpressionChoice reservedDefaultMapper =
        some (utf16 "开心", some (utf16 "expressions/happy.exp3.json")) ∧
      playDefaultExpression reservedDefaultMapper =
        [Effect.playExpressionFile (some (utf16 "expressions/happy.exp3.json"))] ∧
      utf16 "开心" ∈ reservedLabels := by
  decide

/-- C10 (amended): the key whose file `playDefaultExpression` plays is not a
reserved emotion-category label, unless it is the configured `defaultExpression`
itself, played as the first step of the chain from its own non-empty binding. -/
theorem playDefaultExpression_key_not_reserved (m : Mapper) (key : JSString)
    (file : Option JSString) (h : defaultExpressionChoice m = some (key, file)) :
    playDefaultExpression m = [Effect.playExpressionFile file] ∧
      (key ∉ reservedLabels ∨
        (key = m.defaultExpression ∧ m.defaultExpression ≠ [] ∧
          firstBound m.expressionConfig m.defaultExpression = some file)) := by
  refine ⟨by simp [playDefaultExpression, h], ?_⟩
  unfold defaultExpressionChoice at h
  split at h
  · rename_i f hf
    simp only [Option.some.injEq, Prod.mk.injEq] at h
    obtain ⟨rfl, rfl⟩ := h
    right
    split at hf
    · simp at hf
    · rename_i hne
      refine ⟨rfl, ?_, hf⟩
      intro h0
      apply hne
      simp [h0]
  · left
    split at h
    · simp only [Option.some.injEq, Prod.mk.injEq] at h
      obtain ⟨rfl, -⟩ := h
      decide
    · split at h
      · simp only [Option.some.injEq, Prod.mk.injEq] at h
        obtain ⟨rfl, -⟩ := h
        decide
      · split at h
        · simp at h
        · rename_i cfg hcfg
          simp only [Option.map_eq_some', Prod.mk.injEq] at h
          obtain ⟨entry, hentry, rfl, -⟩ := h
          exact firstOtherExpression_not_reserved cfg entry.1 entry.2 hentry

/-- Witness of C10 (amended): the chain reaches the loop over the entries, skips
the reserved label `开心` and plays the file of `微笑`. -/
theorem playDefaultExpression_key_not_reserved_witness :
    defaultExpressionChoice fallbackMapper =
        some (utf16 "微笑", some (utf16 "expressions/smile.exp3.json")) ∧
      (playDefaultExpression fallbackMapper =
          [Effect.playExpressionFile (some (utf16 "expressions/smile.exp3.json"))] ∧
        (utf16 "微笑" ∉ reservedLabels ∨
          (utf16 "微笑" = fallbackMapper.defaultExpression ∧
            fallbackMapper.defaultExpression ≠ [] ∧
            firstBound fallbackMapper.expressionConfig fallbackMapper.defaultExpression =
              some (some (utf16 "expressions/smile.exp3.json"))))) :=
  ⟨by decide,
    playDefaultExpression_key_not_reserved fallbackMapper (utf16 "微笑")
      (some (utf16 "expressions/smile.exp3.json")) (by decide)⟩

/-! ## Theorems: default chain, last step -/

theorem firstOtherExpression_eq_firstAccepted (cfg : ExpressionConfig) :
    firstOtherExpression cfg = firstAccepted eligibleEntry cfg := by
  induction cfg with
  | nil => rfl
  | cons entry rest ih =>
    obtain ⟨name, files⟩ := entry
    cases files with
    | nil =>
      have hne : eligibleEntry (name, []) = false := by simp [eligibleEntry]
      simp only [firstOtherExpression, firstAccepted, List.find?_cons, hne]
      rw [ih]
      rfl
    | cons file more =>
      simp only [firstOtherExpression]
      split
      · rename_i hcond
        obtain ⟨c1, c2, c3, c4, c5, c6, c7⟩ := hcond
        have hel : eligibleEntry (name, file :: more) = true := by
          simp [eligibleEntry, reservedLabels, c1, c2, c3, c4, c5, c6, c7]
        simp [firstAccepted, List.find?_cons, hel]
      · rename_i hcond
        have hel : eligibleEntry (name, file :: more) = false := by
          by_contra hcon
          apply hcond
          simp only [eligibleEntry, reservedLabels, Bool.not_eq_false, Bool.and_eq_true,
            Bool.not_eq_true', List.contains_eq_any_beq, List.any_cons, List.any_nil,
            Bool.or_false, Bool.or_eq_false_iff, beq_eq_false_iff_ne, ne_eq] at hcon
          obtain ⟨⟨-, c1, c2, c3, c4, c5, c6⟩, c7⟩ := hcon
          exact ⟨c1, c2, c3, c4, c5, c6, by simp [c7]⟩
        simp only [firstAccepted, List.find?_cons, hel]
        rw [ih]
        rfl

/-- C11 (counterexample): with `表情2` bound before `微笑`, the first bound key
that is not a reserved label is `表情2`, yet `playDefaultExpression` plays the
file of `微笑`; with `微笑` bound before `默认表情`, that first key is `微笑`, yet
the file of `默认表情` is played. In both, neither `defaultExpression` nor `表情1`
has a binding. -/
theorem playDefaultExpression_last_step_differs :
    (firstBound numberedMapper.expressionConfig numberedMapper.defaultExpression = none ∧
      firstBound numberedMapper.expressionConfig (utf16 "表情1") = none ∧
      firstAccepted boundNonReserved (numberedMapper.expressionConfig.getD []) =
        some (utf16 "表情2", utf16 "expressions/expression2.exp3.json") ∧
      playDefaultExpression numberedMapper =
        [Effect.playExpressionFile (some (utf16 "expressions/smile.exp3.json"))]) ∧
    (firstBound namedDefaultMapper.expressionConfig namedDefaultMapper.defaultExpression = none ∧
      firstBound namedDefaultMapper.expressionConfig (utf16 "表情1") = none ∧
      firstAccepted boundNonReserved (namedDefaultMapper.expressionConfig.getD []) =
        some (utf16 "微笑", utf16 "expressions/smile.exp3.json") ∧
      playDefaultExpression namedDefaultMapper =
        [Effect.playExpressionFile (some (utf16 "expressions/neutral.exp3.json"))]) := by
  decide

theorem defaultExpressionChoice_of_steps (m : Mapper)
    (hd : m.defaultExpression = [] ∨
      firstBound m.expressionConfig m.defaultExpression = none)
    (h1 : firstBound m.expressionConfig (utf16 "表情1") = none) :
    defaultExpressionChoice m =
      match firstBound m.expressionConfig (utf16 "默认表情") with
      | some file => some (utf16 "默认表情", file)
      | none =>
        (firstAccepted eligibleEntry (m.expressionConfig.getD [])).map
          (fun entry => (entry.1, some entry.2)) := by
  unfold defaultExpressionChoice
  have hstep1 : (if m.defaultExpression.isEmpty then none
      else firstBound m.expressionConfig m.defaultExpression) = none := by
    rcases hd with hd | hd
    · simp [hd]
    · simp [hd]
  rw [hstep1, h1]
  simp only
  cases h2 : firstBound m.expressionConfig (utf16 "默认表情") with
  | some file => rfl
  | none =>
    simp only
    cases hc : m.expressionConfig with
    | none => rfl
    | some cfg =>
      simp only [Option.getD_some]
      rw [firstOtherExpression_eq_firstAccepted]

/-- The name `默认表情` is not inherited: its lookup is undefined or an own
array. -/
theorem configGet_namedDefault (cfg : Option ExpressionConfig) :
    (∃ f fs, configGet cfg (utf16 "默认表情") = some (ConfigValue.files (f :: fs))) ∨
      configGet cfg (utf16 "默认表情") = none ∨
      configGet cfg (utf16 "默认表情") = some (ConfigValue.files []) := by
  cases cfg with
  | none => exact Or.inr (Or.inl rfl)
  | some c =>
    unfold configGet
    simp only
    cases hl : c.lookup (utf16 "默认表情") with
    | none =>
      refine Or.inr (Or.inl ?_)
      have : inheritedMembers.lookup (utf16 "默认表情") = none := by decide
      simp [this]
    | some files =>
      cases files with
      | nil => exact Or.inr (Or.inr rfl)
      | cons f fs => exact Or.inl ⟨f, fs, rfl⟩

/-- C11 (amended): when neither the step of the configured `defaultExpression`
nor the step of `表情1` plays (`defaultExpression` empty or its lookup without
candidate, `表情1` without candidate), then: if `默认表情` has a non-empty binding,
`playDefaultExpression` plays the first file of that binding; if `默认表情` is
absent or bound to the empty list, it plays the first file of the first key, in
iteration order, that has a non-empty binding, is not a reserved label and does
not start with `表情`, and makes no call when there is no such key or no
configuration. One of the two cases always holds. -/
theorem playDefaultExpression_last_step (m : Mapper)
    (hd : m.defaultExpression = [] ∨
      firstBound m.expressionConfig m.defaultExpression = none)
    (h1 : firstBound m.expressionConfig (utf16 "表情1") = none) :
    (∀ f fs, configGet m.expressionConfig (utf16 "默认表情") =
          some (ConfigValue.files (f :: fs)) →
        defaultExpressionChoice m = some (utf16 "默认表情", some f) ∧
          playDefaultExpression m = [Effect.playExpressionFile (some f)]) ∧
      ((configGet m.expressionConfig (utf16 "默认表情") = none ∨
          configGet m.expressionConfig (utf16 "默认表情") = some (ConfigValue.files [])) →
        defaultExpressionChoice m =
            (firstAccepted eligibleEntry (m.expressionConfig.getD [])).map
              (fun entry => (entry.1, some entry.2)) ∧
          playDefaultExpression m =
            match firstAccepted eligibleEntry (m.expressionConfig.getD []) with
            | some (_, file) => [Effect.playExpressionFile (some file)]
            | none => []) ∧
      ((∃ f fs, configGet m.expressionConfig (utf16 "默认表情") =
          some (ConfigValue.files (f :: fs))) ∨
        configGet m.expressionConfig (utf16 "默认表情") = none ∨
        configGet m.expressionConfig (utf16 "默认表情") = some (ConfigValue.files [])) := by
  have hchoice := defaultExpressionChoice_of_steps m hd h1
  refine ⟨?_, ?_, configGet_namedDefault m.expressionConfig⟩
  · intro f fs h
    have hfb : firstBound m.expressionConfig (utf16 "默认表情") = some (some f) := by
      simp [firstBound, h]
    rw [hfb] at hchoice
    refine ⟨hchoice, ?_⟩
    unfold playDefaultExpression
    rw [hchoice]
  · intro h
    have hfb : firstBound m.expressionConfig (utf16 "默认表情") = none := by
      rcases h with h | h <;> simp [firstBound, h]
    rw [hfb] at hchoice
    refine ⟨hchoice, ?_⟩
    unfold playDefaultExpression
    rw [hchoice]
    cases firstAccepted eligibleEntry (m.expressionConfig.getD []) with
    | none => rfl
    | some entry => rfl

/-- Witness of C11 (amended): in `namedDefaultMapper` the file of `默认表情` is
played although `微笑` comes first; in `numberedMapper`, where `默认表情` is
absent, `表情2` is skipped and the file of `微笑` is played. -/
theorem playDefaultExpression_last_step_witness :
    (defaultExpressionChoice namedDefaultMapper =
          some (utf16 "默认表情", some (utf16 "expressions/neutral.exp3.json")) ∧
        playDefaultExpression namedDefaultMapper =
          [Effect.playExpressionFile (some (utf16 "expressions/neutral.exp3.json"))]) ∧
      firstAccepted eligibleEntry (numberedMapper.expressionConfig.getD []) =
        some (utf16 "微笑", utf16 "expressions/smile.exp3.json") ∧
      (defaultExpressionChoice numberedMapper =
          (firstAccepted eligibleEntry (numberedMapper.expressionConfig.getD [])).map
            (fun entry => (entry.1, some entry.2)) ∧
        playDefaultExpression numberedMapper =
          match firstAccepted eligibleEntry (numberedMapper.expressionConfig.getD []) with
          | some (_, file) => [Effect.playExpressionFile (some file)]
          | none => []) :=
  ⟨(playDefaultExpression_last_step namedDefaultMapper (Or.inr (by decide)) (by decide)).1
      (utf16 "expressions/neutral.exp3.json") [] (by decide),
    by decide,
    (playDefaultExpression_last_step numberedMapper (Or.inr (by decide)) (by decide)).2.1
      (Or.inl (by decide))⟩

/-! ## Theorems: binding mutation -/

theorem lookup_replaceEntry_self (cfg : ExpressionConfig) (key : JSString)
    (old value : List JSString) (h : cfg.lookup key = some old) :
    (replaceEntry cfg key value).lookup key = some value := by
  induction cfg with
  | nil => simp [List.lookup] at h
  | cons entry rest ih =>
    obtain ⟨k, v⟩ := entry
    simp only [replaceEntry]
    split
    · rename_i hk
      subst hk
      simp [List.lookup]
    · rename_i hk
      have hb : (key == k) = false := by simpa using hk
      simp only [List.lookup, hb] at h ⊢
      exact ih h

theorem lookup_insertEntry_self (cfg : ExpressionConfig) (key : JSString)
    (value : List JSString) (h : cfg.lookup key = none) :
    (insertEntry cfg key value).lookup key = some value := by
  induction cfg with
  | nil => simp [insertEntry, List.lookup]
  | cons entry rest ih =>
    obtain ⟨k, v⟩ := entry
    simp only [insertEntry]
    split
    · simp [List.lookup]
    · cases hb : (key == k) with
      | true => simp [List.lookup, hb] at h
      | false =>
        simp only [List.lookup, hb] at h ⊢
        exact ih h

theorem lookup_configSet_self (cfg : ExpressionConfig) (key : JSString) (value : List JSString) :
    (configSet cfg key value).lookup key = some value := by
  unfold configSet
  cases h : cfg.lookup key with
  | none => exact lookup_insertEntry_self cfg key value h
  | some old => exact lookup_replaceEntry_self cfg key old value h

theorem lookup_replaceEntry_other (cfg : ExpressionConfig) (key other : JSString)
    (value : List JSString) (h : other ≠ key) :
    (replaceEntry cfg key value).lookup other = cfg.lookup other := by
  induction cfg with
  | nil => rfl
  | cons entry rest ih =>
    obtain ⟨k, v⟩ := entry
    simp only [replaceEntry]
    split
    · rename_i hk
      subst hk
      have : (other == key) = false := by simpa using h
      simp [List.lookup, this]
    · simp only [List.lookup]
      split
      · rfl
      · exact ih

theorem lookup_insertEntry_other (cfg : ExpressionConfig) (key other : JSString)
    (value : List JSString) (h : other ≠ key) :
    (insertEntry cfg key value).lookup other = cfg.lookup other := by
  have hb : (other == key) = false := by simpa using h
  induction cfg with
  | nil => simp [insertEntry, List.lookup, hb]
  | cons entry rest ih =>
    obtain ⟨k, v⟩ := entry
    simp only [insertEntry]
    split
    · simp [List.lookup, hb]
    · simp only [List.lookup]
      split
      · rfl
      · exact ih

theorem lookup_configSet_other (cfg : ExpressionConfig) (key other : JSString)
    (value : List JSString) (h : other ≠ key) :
    (configSet cfg key value).lookup other = cfg.lookup other := by
  unfold configSet
  cases cfg.lookup key with
  | none => exact lookup_insertEntry_other cfg key other value h
  | some old => exact lookup_replaceEntry_other cfg key other value h

theorem configSet_same (cfg : ExpressionConfig) (key : JSString) (value : List JSString)
    (h : cfg.lookup key = some value) : configSet cfg key value = cfg := by
  unfold configSet
  rw [h]
  simp only
  induction cfg with
  | nil => simp [List.lookup] at h
  | cons entry rest ih =>
    obtain ⟨k, v⟩ := entry
    simp only [replaceEntry]
    split
    · rename_i hk
      subst hk
      simp [List.lookup] at h
      rw [h]
    · rename_i hk
      have hb : (key == k) = false := by simpa using hk
      simp only [List.lookup, hb] at h
      rw [ih h]

theorem configGet_configSet_self (cfg : ExpressionConfig) (key : JSString)
    (value : List JSString) :
    configGet (some (configSet cfg key value)) key = some (ConfigValue.files value) := by
  simp [configGet, lookup_configSet_self]

theorem configGet_configSet_other (cfg : ExpressionConfig) (key other : JSString)
    (value : List JSString) (h : other ≠ key) :
    configGet (some (configSet cfg key value)) other = configGet (some cfg) other := by
  simp [configGet, lookup_configSet_other cfg key other value h]

theorem lookup_of_configGet_files (cfg : ExpressionConfig) (key : JSString)
    (files : List JSString) (h : configGet (some cfg) key = some (ConfigValue.files files)) :
    cfg.lookup key = some files := by
  unfold configGet at h
  simp only at h
  cases hl : cfg.lookup key with
  | none =>
    rw [hl] at h
    simp only at h
    cases hi : inheritedMembers.lookup key with
    | none => rw [hi] at h; simp at h
    | some l => rw [hi] at h; simp at h
  | some fs =>
    rw [hl] at h
    simp only [Option.some.injEq, ConfigValue.files.injEq] at h
    rw [h]

theorem pushMissing_of_subset (target files : List JSString) (h : ∀ f ∈ files, f ∈ target) :
    pushMissing target files = target := by
  induction files with
  | nil => rfl
  | cons f rest ih =>
    have hf : target.contains f = true := by simpa using h f (by simp)
    simp only [pushMissing, hf, if_true]
    exact ih (fun x hx => h x (by simp [hx]))

theorem mem_pushMissing_of_mem_target (target files : List JSString) (f : JSString)
    (h : f ∈ target) : f ∈ pushMissing target files := by
  induction files generalizing target with
  | nil => exact h
  | cons g rest ih =>
    simp only [pushMissing]
    split
    · exact ih target h
    · exact ih _ (by simp [h])

theorem mem_pushMissing_of_mem_files (target files : List JSString) (f : JSString)
    (h : f ∈ files) : f ∈ pushMissing target files := by
  induction files generalizing target with
  | nil => simp at h
  | cons g rest ih =>
    simp only [pushMissing]
    rcases List.mem_cons.mp h with rfl | h
    · split
      · rename_i hc
        exact mem_pushMissing_of_mem_target _ _ _ (by simpa using hc)
      · exact mem_pushMissing_of_mem_target _ _ _ (by simp)
    · split
      · exact ih target h
      · exact ih _ h

/-- The call on a configuration in which `expressionName` is bound to the empty
list, or is the name of an inherited function of `length` 0: it returns `false`
and changes nothing. -/
theorem bind_eval_false (cfg : ExpressionConfig) (d emotion expressionName : JSString)
    (hx : configGet (some cfg) expressionName = some (ConfigValue.files []) ∨
      configGet (some cfg) expressionName = some (ConfigValue.inherited (some 0))) :
    bindExpressionToEmotion { expressionConfig := some cfg, defaultExpression := d }
        emotion expressionName =
      { result := CallResult.returned false
        mapper := { expressionConfig := some cfg, defaultExpression := d }
        effects := [] } := by
  unfold bindExpressionToEmotion
  rcases hx with hx | hx <;> simp only [hx]

/-- The call on a configuration in which `expressionName` has a non-empty
binding and `emotion` is a key: it returns `true` and the candidates of
`emotion` are completed by the missing files. -/
theorem bind_eval_true (cfg : ExpressionConfig) (d emotion expressionName : JSString)
    (file : JSString) (files target : List JSString)
    (hx : configGet (some cfg) expressionName = some (ConfigValue.files (file :: files)))
    (he : configGet (some cfg) emotion = some (ConfigValue.files target)) :
    (bindExpressionToEmotion { expressionConfig := some cfg, defaultExpression := d }
        emotion expressionName).result = CallResult.returned true ∧
      (bindExpressionToEmotion { expressionConfig := some cfg, defaultExpression := d }
        emotion expressionName).mapper =
        { expressionConfig := some (configSet cfg emotion (pushMissing target (file :: files)))
          defaultExpression := d } := by
  unfold bindExpressionToEmotion
  simp only [hx, he]
  exact ⟨trivial, trivial⟩

/-- The call on a configuration in which `expressionName` has a non-empty
binding and the lookup of `emotion` is undefined: the key is created, the files
are pushed and the call returns `true`. -/
theorem bind_eval_true_new (cfg : ExpressionConfig) (d emotion expressionName : JSString)
    (file : JSString) (files : List JSString)
    (hx : configGet (some cfg) expressionName = some (ConfigValue.files (file :: files)))
    (he : configGet (some cfg) emotion = none) :
    (bindExpressionToEmotion { expressionConfig := some cfg, defaultExpression := d }
        emotion expressionName).result = CallResult.returned true ∧
      (bindExpressionToEmotion { expressionConfig := some cfg, defaultExpression := d }
        emotion expressionName).mapper =
        { expressionConfig :=
            some (configSet (configSet cfg emotion []) emotion (pushMissing [] (file :: files)))
          defaultExpression := d } := by
  unfold bindExpressionToEmotion
  simp only [hx, he, configGet_configSet_self]
  exact ⟨trivial, trivial⟩

/-- The call on a configuration in which `expressionName` has a non-empty
binding and `emotion` is the name of an inherited member: the first turn of the
loop throws and nothing has changed. -/
theorem bind_eval_threw_emotion (cfg : ExpressionConfig) (d emotion expressionName : JSString)
    (file : JSString) (files : List JSString) (length : Option Nat)
    (hx : configGet (some cfg) expressionName = some (ConfigValue.files (file :: files)))
    (he : configGet (some cfg) emotion = some (ConfigValue.inherited length)) :
    bindExpressionToEmotion { expressionConfig := some cfg, defaultExpression := d }
        emotion expressionName =
      { result := CallResult.threw
        mapper := { expressionConfig := some cfg, defaultExpression := d }
        effects := [] } := by
  unfold bindExpressionToEmotion
  simp only [hx, he]

/-- The call on a configuration in which `expressionName` is the name of an
inherited member that is not a function of `length` 0, and the lookup of
`emotion` is truthy: the loop throws and nothing has changed. -/
theorem bind_eval_threw (cfg : ExpressionConfig) (d emotion expressionName : JSString)
    (length : Option Nat) (value : ConfigValue) (hl : length ≠ some 0)
    (hx : configGet (some cfg) expressionName = some (ConfigValue.inherited length))
    (he : configGet (some cfg) emotion = some value) :
    bindExpressionToEmotion { expressionConfig := some cfg, defaultExpression := d }
        emotion expressionName =
      { result := CallResult.threw
        mapper := { expressionConfig := some cfg, defaultExpression := d }
        effects := [] } := by
  unfold bindExpressionToEmotion
  cases length with
  | none => simp only [hx, he]
  | some n =>
    cases n with
    | zero => exact absurd rfl hl
    | succ k => simp only [hx, he]

/-- The call on a configuration in which `expressionName` is the name of an
inherited member that is not a function of `length` 0, and the lookup of
`emotion` is undefined: the key of the emotion is created, then the loop
throws. -/
theorem bind_eval_threw_new (cfg : ExpressionConfig) (d emotion expressionName : JSString)
    (length : Option Nat) (hl : length ≠ some 0)
    (hx : configGet (some cfg) expressionName = some (ConfigValue.inherited length))
    (he : configGet (some cfg) emotion = none) :
    bindExpressionToEmotion { expressionConfig := some cfg, defaultExpression := d }
        emotion expressionName =
      { result := CallResult.threw
        mapper := { expressionConfig := some (configSet cfg emotion []), defaultExpression := d }
        effects := [] } := by
  unfold bindExpressionToEmotion
  cases length with
  | none => simp only [hx, he]
  | some n =>
    cases n with
    | zero => exact absurd rfl hl
    | succ k => simp only [hx, he]

/-- The call for a name whose lookup is undefined and for which a non-empty file
is found: it proceeds as the call on the configuration with the name added. -/
theorem bind_eval_added (cfg : ExpressionConfig) (d emotion expressionName file : JSString)
    (hx : configGet (some cfg) expressionName = none)
    (hf : findExpressionFile (some cfg) expressionName = some (some file))
    (hne : file.isEmpty = false) :
    bindExpressionToEmotion { expressionConfig := some cfg, defaultExpression := d }
        emotion expressionName =
      bindExpressionToEmotion
        { expressionConfig := some (configSet cfg expressionName [file]), defaultExpression := d }
        emotion expressionName := by
  unfold bindExpressionToEmotion
  simp only [hx, hf, hne, configGet_configSet_self, Bool.false_eq_true, if_false]

/-- The call for a name whose lookup is undefined and for which no non-empty
file is found: it returns `false` and changes nothing. -/
theorem bind_eval_not_found (cfg : ExpressionConfig) (d emotion expressionName : JSString)
    (hx : configGet (some cfg) expressionName = none)
    (hf : ∀ file, findExpressionFile (some cfg) expressionName = some (some file) →
      file.isEmpty = true) :
    bindExpressionToEmotion { expressionConfig := some cfg, defaultExpression := d }
        emotion expressionName =
      { result := CallResult.returned false
        mapper := { expressionConfig := some cfg, defaultExpression := d }
        effects := [] } := by
  unfold bindExpressionToEmotion
  simp only [hx]
  cases hfe : findExpressionFile (some cfg) expressionName with
  | none => rfl
  | some found =>
    cases found with
    | none => rfl
    | some file => simp only [hf file hfe, if_true]

/-- A call that returned `true` on a configuration in which `expressionName` and
`emotion` are keys, the files of the first all candidates of the second, changes
nothing when repeated. -/
theorem bind_fixed (cfg : ExpressionConfig) (d emotion expressionName : JSString)
    (file : JSString) (files target : List JSString)
    (hx : configGet (some cfg) expressionName = some (ConfigValue.files (file :: files)))
    (he : configGet (some cfg) emotion = some (ConfigValue.files target))
    (hsub : ∀ f ∈ file :: files, f ∈ target) :
    (bindExpressionToEmotion { expressionConfig := some cfg, defaultExpression := d }
        emotion expressionName).result = CallResult.returned true ∧
      (bindExpressionToEmotion { expressionConfig := some cfg, defaultExpression := d }
        emotion expressionName).mapper =
        { expressionConfig := some cfg, defaultExpression := d } := by
  obtain ⟨hr, hm⟩ := bind_eval_true cfg d emotion expressionName file files target hx he
  refine ⟨hr, ?_⟩
  rw [hm, pushMissing_of_subset target (file :: files) hsub,
    configSet_same cfg emotion target (lookup_of_configGet_files cfg emotion target he)]

/-- Idempotence on a configuration in which the lookup of `expressionName` is
truthy. -/
theorem bind_idempotent_present (cfg : ExpressionConfig) (d emotion expressionName : JSString)
    (value : ConfigValue) (hx : configGet (some cfg) expressionName = some value) :
    (bindExpressionToEmotion
        (bindExpressionToEmotion { expressionConfig := some cfg, defaultExpression := d }
          emotion expressionName).mapper emotion expressionName).mapper =
        (bindExpressionToEmotion { expressionConfig := some cfg, defaultExpression := d }
          emotion expressionName).mapper ∧
      (bindExpressionToEmotion
        (bindExpressionToEmotion { expressionConfig := some cfg, defaultExpression := d }
          emotion expressionName).mapper emotion expressionName).result =
        (bindExpressionToEmotion { expressionConfig := some cfg, defaultExpression := d }
          emotion expressionName).result := by
  cases value with
  | files fs =>
    cases fs with
    | nil =>
      have h := bind_eval_false cfg d emotion expressionName (Or.inl hx)
      rw [h]
      simp only
      rw [h]
      exact ⟨rfl, rfl⟩
    | cons file files =>
      cases he : configGet (some cfg) emotion with
      | none =>
        obtain ⟨hr, hm⟩ := bind_eval_true_new cfg d emotion expressionName file files hx he
        have hne : expressionName ≠ emotion := by
          intro heq
          rw [heq, he] at hx
          simp at hx
        have hx3 : configGet (some (configSet (configSet cfg emotion []) emotion
            (pushMissing [] (file :: files)))) expressionName =
            some (ConfigValue.files (file :: files)) := by
          rw [configGet_configSet_other _ _ _ _ hne, configGet_configSet_other _ _ _ _ hne, hx]
        obtain ⟨hr2, hm2⟩ := bind_fixed _ d emotion expressionName file files _ hx3
          (configGet_configSet_self _ _ _)
          (fun f hf => mem_pushMissing_of_mem_files _ _ _ hf)
        rw [hm, hr, hm2, hr2]
        exact ⟨rfl, rfl⟩
      | some target =>
        cases target with
        | inherited length =>
          have h := bind_eval_threw_emotion cfg d emotion expressionName file files length hx he
          rw [h]
          simp only
          rw [h]
          exact ⟨rfl, rfl⟩
        | files target =>
          obtain ⟨hr, hm⟩ := bind_eval_true cfg d emotion expressionName file files target hx he
          have hx3 : configGet (some (configSet cfg emotion
              (pushMissing target (file :: files)))) expressionName =
              some (ConfigValue.files (file :: files)) := by
            by_cases heq : expressionName = emotion
            · have ht : target = file :: files := by
                rw [heq, he] at hx
                simpa using hx
              rw [heq, configGet_configSet_self, ht,
                pushMissing_of_subset _ _ (fun f hf => hf)]
            · rw [configGet_configSet_other _ _ _ _ heq, hx]
          obtain ⟨hr2, hm2⟩ := bind_fixed _ d emotion expressionName file files _ hx3
            (configGet_configSet_self _ _ _)
            (fun f hf => mem_pushMissing_of_mem_files _ _ _ hf)
          rw [hm, hr, hm2, hr2]
          exact ⟨rfl, rfl⟩
  | inherited length =>
    by_cases hl : length = some 0
    · subst hl
      have h := bind_eval_false cfg d emotion expressionName (Or.inr hx)
      rw [h]
      simp only
      rw [h]
      exact ⟨rfl, rfl⟩
    · cases he : configGet (some cfg) emotion with
      | some target =>
        have h := bind_eval_threw cfg d emotion expressionName length target hl hx he
        rw [h]
        simp only
        rw [h]
        exact ⟨rfl, rfl⟩
      | none =>
        have h := bind_eval_threw_new cfg d emotion expressionName length hl hx he
        have hne : expressionName ≠ emotion := by
          intro heq
          rw [heq, he] at hx
          simp at hx
        have hx2 : configGet (some (configSet cfg emotion [])) expressionName =
            some (ConfigValue.inherited length) := by
          rw [configGet_configSet_other _ _ _ _ hne, hx]
        have h2 := bind_eval_threw (configSet cfg emotion []) d emotion expressionName length
          (ConfigValue.files []) hl hx2 (configGet_configSet_self _ _ _)
        rw [h]
        simp only
        rw [h2]
        exact ⟨rfl, rfl⟩

/-- C12: `bindExpressionToEmotion` is idempotent. A second call with the same
emotion and expression name leaves the mapper (the whole configuration, order
included) as the first call left it and returns what the first call returned. -/
theorem bindExpressionToEmotion_idempotent (m : Mapper) (emotion expressionName : JSString) :
    (bindExpressionToEmotion (bindExpressionToEmotion m emotion expressionName).mapper
        emotion expressionName).mapper =
        (bindExpressionToEmotion m emotion expressionName).mapper ∧
      (bindExpressionToEmotion (bindExpressionToEmotion m emotion expressionName).mapper
        emotion expressionName).result =
        (bindExpressionToEmotion m emotion expressionName).result := by
  obtain ⟨config, d⟩ := m
  cases config with
  | none => exact ⟨rfl, rfl⟩
  | some cfg =>
    cases hx : configGet (some cfg) expressionName with
    | some value => exact bind_idempotent_present cfg d emotion expressionName value hx
    | none =>
      by_cases hf : ∃ file, findExpressionFile (some cfg) expressionName = some (some file) ∧
          file.isEmpty = false
      · obtain ⟨file, hfile, hne⟩ := hf
        rw [bind_eval_added cfg d emotion expressionName file hx hfile hne]
        exact bind_idempotent_present _ d emotion expressionName _
          (configGet_configSet_self cfg expressionName [file])
      · have hall : ∀ file, findExpressionFile (some cfg) expressionName = some (some file) →
            file.isEmpty = true := by
          intro file hfile
          by_contra hcon
          exact hf ⟨file, hfile, by simpa using hcon⟩
        have h := bind_eval_not_found cfg d emotion expressionName hx hall
        rw [h]
        simp only
        rw [h]
        exact ⟨rfl, rfl⟩

theorem findIndex_none_of_all_false (p : JSString → Bool) (files : List JSString)
    (h : ∀ f ∈ files, p f = false) : findIndex p files = none := by
  induction files with
  | nil => rfl
  | cons f rest ih =>
    simp only [findIndex, h f (by simp)]
    rw [ih (fun x hx => h x (by simp [hx]))]
    rfl

/-- C13 (counterexample): `开心` is bound to `expressions/happy2.exp3.json` only,
so no candidate is the asset `expressions/happy.exp3.json` of `happy`; yet
`removeExpressionFromEmotion("开心", "happy")` returns `true`, removes that
candidate, requests a save and emits `EXPRESSION_UNBOUND`. -/
theorem removeExpressionFromEmotion_substring_match :
    configGet happy2Mapper.expressionConfig (utf16 "开心") =
        some (ConfigValue.files [utf16 "expressions/happy2.exp3.json"]) ∧
      utf16 "expressions/happy.exp3.json" ∉ [utf16 "expressions/happy2.exp3.json"] ∧
      removeExpressionFromEmotion happy2Mapper (utf16 "开心") (utf16 "happy") =
        { result := CallResult.returned true
          mapper :=
            { expressionConfig := some [(utf16 "开心", [])]
              defaultExpression := utf16 "表情1" }
          effects :=
            [ConfigEffect.saveExpressionConfig [(utf16 "开心", [])],
             ConfigEffect.expressionUnbound (utf16 "开心") (utf16 "happy")] } := by
  decide

/-- C13 (amended): when the lookup of the emotion is undefined (the
configuration is null, or the emotion is neither a key nor the name of an
inherited member), or the emotion is a key none of whose candidates equals
`expressions/<x>.exp3.json` or contains the expression name `x` as a substring,
`removeExpressionFromEmotion` returns `false` without throwing, leaves the mapper
unchanged and makes no call (no save request, no `EXPRESSION_UNBOUND` event). -/
theorem removeExpressionFromEmotion_absent (m : Mapper) (emotion expressionName : JSString)
    (h : configGet m.expressionConfig emotion = none ∨
      ∃ files, configGet m.expressionConfig emotion = some (ConfigValue.files files) ∧
        ∀ f ∈ files,
          f ≠ utf16 "expressions/" ++ expressionName ++ utf16 ".exp3.json" ∧
            includes f expressionName = false) :
    removeExpressionFromEmotion m emotion expressionName =
      { result := CallResult.returned false, mapper := m, effects := [] } := by
  unfold removeExpressionFromEmotion
  cases hc : m.expressionConfig with
  | none => rfl
  | some cfg =>
    rw [hc] at h
    simp only
    rcases h with h | ⟨files, hfiles, hall⟩
    · rw [h]
    · rw [hfiles]
      simp only
      rw [findIndex_none_of_all_false _ _ (fun f hf => by
        obtain ⟨h1, h2⟩ := hall f hf
        rw [h2, decide_eq_false h1]
        rfl)]

/-- Witness of C13 (amended): `开心` is bound to `happy2` and the name `smile` is
asked to be removed. -/
theorem removeExpressionFromEmotion_absent_witness :
    (configGet happy2Mapper.expressionConfig (utf16 "开心") = none ∨
      ∃ files, configGet happy2Mapper.expressionConfig (utf16 "开心") =
          some (ConfigValue.files files) ∧
        ∀ f ∈ files,
          f ≠ utf16 "expressions/" ++ utf16 "smile" ++ utf16 ".exp3.json" ∧
            includes f (utf16 "smile") = false) ∧
      removeExpressionFromEmotion happy2Mapper (utf16 "开心") (utf16 "smile") =
        { result := CallResult.returned false, mapper := happy2Mapper, effects := [] } :=
  ⟨Or.inr ⟨[utf16 "expressions/happy2.exp3.json"], by decide, by decide⟩,
    removeExpressionFromEmotion_absent happy2Mapper (utf16 "开心") (utf16 "smile")
      (Or.inr ⟨[utf16 "expressions/happy2.exp3.json"], by decide, by decide⟩)⟩

theorem includes_synthesized_path (expressionName : JSString) :
    includes (utf16 "expressions/" ++ expressionName ++ utf16 ".exp3.json")
      (utf16 "expression") = true := by
  have h1 : utf16 "expressions/" =
      [101, 120, 112, 114, 101, 115, 115, 105, 111, 110, 115, 47] := by decide
  have h2 : utf16 "expression" = [101, 120, 112, 114, 101, 115, 115, 105, 111, 110] := by
    decide
  rw [h1, h2]
  simp [includes, List.isPrefixOf]

theorem findExpressionFile_isSome (cfg : Option ExpressionConfig) (expressionName : JSString) :
    (findExpressionFile cfg expressionName).isSome = true := by
  unfold findExpressionFile
  simp only
  split
  · rfl
  · rw [if_pos (includes_synthesized_path expressionName)]
    rfl

/-- C14 (failing input): `findExpressionFile` never returns null, because the
synthesized path always starts with `expressions/` and so always contains
`expression`: the result is the first file of a binding (`undefined` for the
name of an inherited function) or the synthesized path. For the name `微笑` in
an empty configuration it returns `expressions/微笑.exp3.json`, and
`bindExpressionToEmotion("开心", "微笑")` returns `true`. -/
theorem findExpressionFile_never_null :
    (∀ cfg expressionName, (findExpressionFile cfg expressionName).isSome = true) ∧
      findExpressionFile (some []) (utf16 "微笑") =
        some (some (utf16 "expressions/微笑.exp3.json")) ∧
      (bindExpressionToEmotion { expressionConfig := some [], defaultExpression := utf16 "表情1" }
        (utf16 "开心") (utf16 "微笑")).result = CallResult.returned true :=
  ⟨findExpressionFile_isSome, by decide, by decide⟩

/-! ## Theorems: order of the markers -/

theorem markerLoop_sorted (cfg : Option ExpressionConfig) {k n : Nat} {ts : List EmotionTag}
    (h : SpansFrom k ts n) (offset : Int) :
    (∀ mk ∈ markerLoop cfg ts offset, (k : Int) - offset ≤ mk.position) ∧
      List.Pairwise (fun a b : EmotionMarker => a.position ≤ b.position)
        (markerLoop cfg ts offset) := by
  induction ts generalizing k offset with
  | nil => simp [markerLoop]
  | cons t rest ih =>
    obtain ⟨h1, h2, h3⟩ := h
    obtain ⟨hb, hp⟩ := ih h3 (offset + ((t.endIndex : Int) - (t.startIndex : Int)))
    have hb' : ∀ mk ∈ markerLoop cfg rest (offset + ((t.endIndex : Int) - (t.startIndex : Int))),
        (t.startIndex : Int) - offset ≤ mk.position := by
      intro mk hmk
      have := hb mk hmk
      omega
    simp only [markerLoop]
    cases hc : configGet cfg t.emotion with
    | none =>
      simp only
      refine ⟨fun mk hmk => ?_, hp⟩
      have := hb' mk hmk
      omega
    | some files =>
      simp only
      refine ⟨fun mk hmk => ?_, List.Pairwise.cons (fun mk hmk => hb' mk hmk) hp⟩
      rcases List.mem_cons.mp hmk with rfl | hmk
      · simp only
        omega
      · have := hb' mk hmk
        omega

/-- C20: the marker list returned by `prepareTextForTTS` is position-sorted:
every marker's position is at most the position of each marker after it in the
list. -/
theorem prepareTextForTTS_markers_sorted (m : Mapper) (text : JSString) :
    List.Pairwise (fun a b : EmotionMarker => a.position ≤ b.position)
      (prepareTextForTTS m text).emotionMarkers := by
  unfold prepareTextForTTS
  simp only
  split
  · exact List.Pairwise.nil
  · exact (markerLoop_sorted m.expressionConfig (parse_spansFrom text) 0).2

/-! ## Theorems: playback engine -/

/-- C15: for an audio duration `d ≥ 0` (ms) and a stripped-text length `L ≥ 1`,
`charInterval = max(30, min(200, d / L))` is a number between 30 and 200, and
is `d / L` itself when `30 ≤ d / L ≤ 200`. -/
theorem charInterval_clamped (d : ℚ) (L : Nat) (_hd : 0 ≤ d) (hL : 1 ≤ L) :
    ∃ c, charInterval d L = some c ∧ 30 ≤ c ∧ c ≤ 200 ∧
      (30 ≤ d / (L : ℚ) → d / (L : ℚ) ≤ 200 → c = d / (L : ℚ)) := by
  refine ⟨max 30 (min 200 (d / (L : ℚ))), ?_, le_max_left _ _, ?_, ?_⟩
  · unfold charInterval
    rw [if_neg (by omega)]
  · exact max_le (by norm_num) (min_le_left _ _)
  · intro h1 h2
    rw [min_eq_right h2, max_eq_right h1]

/-- Witness of C15: one second of audio for ten characters gives 100 ms. -/
theorem charInterval_clamped_witness :
    (0 : ℚ) ≤ 1000 ∧ 1 ≤ 10 ∧
      ∃ c, charInterval 1000 10 = some c ∧ 30 ≤ c ∧ c ≤ 200 ∧
        (30 ≤ (1000 : ℚ) / ((10 : Nat) : ℚ) → (1000 : ℚ) / ((10 : Nat) : ℚ) ≤ 200 →
          c = (1000 : ℚ) / ((10 : Nat) : ℚ)) :=
  ⟨by norm_num, by decide, charInterval_clamped 1000 10 (by norm_num) (by decide)⟩

theorem cancelFrame_not_resolve (handle : Option Nat) :
    (cancelFrame handle).filter isResolve = [] := by
  cases handle <;> rfl

theorem sendZero_not_resolve (e : Engine) : (sendZero e).filter isResolve = [] := by
  unfold sendZero
  split <;> rfl

theorem cleanup_not_resolve (e : Engine) : (cleanup e).effects.filter isResolve = [] := by
  unfold cleanup
  cases e.currentAudioUrl <;> rfl

theorem stop_resolves (e : Engine) :
    (stop e).effects.filter isResolve =
      match e.currentAudioResolve with
      | some handle => [EngineEffect.resolve handle (some stoppedPayload)]
      | none => [] := by
  have haudio : (match e.currentAudio with
      | some audio => [EngineEffect.audioStopped audio]
      | none => []).filter isResolve = [] := by
    cases e.currentAudio <;> rfl
  simp only [stop, List.filter_append, cancelFrame_not_resolve, sendZero_not_resolve,
    cleanup_not_resolve, haudio, List.nil_append]
  cases e.currentAudioResolve <;> rfl

/-- C16: in an engine state with a pending completion, `stop()` calls the stored
resolver exactly once, with `{ completed: false, stopped: true }`, and clears
the handle; afterwards `isPlaying` is false and `shouldStop` is true, and a second
`stop()` calls no resolver. -/
theorem stop_resolves_pending_once (e : Engine) (handle : Nat)
    (h : e.currentAudioResolve = some handle) :
    (stop e).effects.filter isResolve = [EngineEffect.resolve handle (some stoppedPayload)] ∧
      stoppedPayload.completed = some false ∧ stoppedPayload.stopped = some true ∧
      (stop e).engine.currentAudioResolve = none ∧
      (stop e).engine.isPlaying = false ∧ (stop e).engine.shouldStop = true ∧
      (stop (stop e).engine).effects.filter isResolve = [] := by
  refine ⟨?_, rfl, rfl, rfl, rfl, rfl, ?_⟩
  · rw [stop_resolves, h]
  · rw [stop_resolves]
    rfl

/-- Witness of C16 on an engine in the middle of a segment. -/
theorem stop_resolves_pending_once_witness :
    playingEngine.currentAudioResolve = some 3 ∧
      ((stop playingEngine).effects.filter isResolve =
          [EngineEffect.resolve 3 (some stoppedPayload)] ∧
        stoppedPayload.completed = some false ∧ stoppedPayload.stopped = some true ∧
        (stop playingEngine).engine.currentAudioResolve = none ∧
        (stop playingEngine).engine.isPlaying = false ∧
        (stop playingEngine).engine.shouldStop = true ∧
        (stop (stop playingEngine).engine).effects.filter isResolve = []) :=
  ⟨rfl, stop_resolves_pending_once playingEngine 3 rfl⟩

/-- C17: resource release is idempotent and complete. The engine state after two
calls of `stop()`, of `cleanup()` or of `cleanupOnError()` is the state after
one; after `stop()` and after `cleanupOnError()` both tick handles,
`currentAudio` and `currentAudioUrl` are null and `isPlaying` is false. -/
theorem release_idempotent_complete (e : Engine) :
    (stop (stop e).engine).engine = (stop e).engine ∧
      (cleanup (cleanup e).engine).engine = (cleanup e).engine ∧
      (cleanupOnError (cleanupOnError e).engine).engine = (cleanupOnError e).engine ∧
      ((stop e).engine._textAnimInterval = none ∧ (stop e).engine._renderFrameId = none ∧
        (stop e).engine.currentAudio = none ∧ (stop e).engine.currentAudioUrl = none ∧
        (stop e).engine.isPlaying = false) ∧
      ((cleanupOnError e).engine._textAnimInterval = none ∧
        (cleanupOnError e).engine._renderFrameId = none ∧
        (cleanupOnError e).engine.currentAudio = none ∧
        (cleanupOnError e).engine.currentAudioUrl = none ∧
        (cleanupOnError e).engine.isPlaying = false) :=
  ⟨rfl, rfl, rfl, ⟨rfl, rfl, rfl, rfl, rfl⟩, ⟨rfl, rfl, rfl, rfl, rfl⟩⟩

/-- C18: in an engine state with `shouldStop` set, a reveal tick and an amplitude
tick change neither the engine nor the reveal state and make no call (no marker
fired, no subtitle, no mouth value, no further tick requested); `playAudio`
resolves at once, leaves `isPlaying`, the audio element, its URL and the stored
resolver as they were, and makes no call other than creating the audio
context. -/
theorem no_side_effect_after_stop (env : Collaborators) (e : Engine) (p : Playback)
    (currentTime : ℚ) (requestId : Nat) (dataArray : List Nat) (audioBlob : Bool)
    (segmentText : JSString) (resolveId url audio : Nat) (h : e.shouldStop = true) :
    animateTextFrame env e p currentTime requestId =
        { engine := e, playback := p, effects := [] } ∧
      updateMouth e dataArray requestId = { engine := e, effects := [] } ∧
      (playAudio e audioBlob segmentText resolveId url audio).outcome = PlayOutcome.resolved ∧
      (playAudio e audioBlob segmentText resolveId url audio).engine.isPlaying = e.isPlaying ∧
      (playAudio e audioBlob segmentText resolveId url audio).engine.currentAudio =
        e.currentAudio ∧
      (playAudio e audioBlob segmentText resolveId url audio).engine.currentAudioUrl =
        e.currentAudioUrl ∧
      (playAudio e audioBlob segmentText resolveId url audio).engine.currentAudioResolve =
        e.currentAudioResolve ∧
      ∀ fx ∈ (playAudio e audioBlob segmentText resolveId url audio).effects,
        fx = EngineEffect.createAudioContext := by
  refine ⟨?_, ?_, ?_⟩
  · simp [animateTextFrame, h]
  · simp [updateMouth, h]
  · cases audioBlob with
    | false => simp [playAudio]
    | true =>
      have hp : playAudio e true segmentText resolveId url audio =
          { engine := { e with audioContext := true, currentSegmentText := segmentText }
            effects := if e.audioContext then [] else [EngineEffect.createAudioContext]
            outcome := PlayOutcome.resolved } := by
        simp [playAudio, h]
      rw [hp]
      refine ⟨rfl, rfl, rfl, rfl, rfl, ?_⟩
      intro fx hfx
      simp only at hfx
      split at hfx
      · simp at hfx
      · simpa using hfx

/-- Witness of C18: cancellation requested in the middle of a segment, with the
audio element still in place and a marker pending. -/
theorem no_side_effect_after_stop_witness :
    cancelledEngine.shouldStop = true ∧
      (animateTextFrame sampleCollaborators cancelledEngine samplePlayback 1000 6 =
          { engine := cancelledEngine, playback := samplePlayback, effects := [] } ∧
        updateMouth cancelledEngine [128, 64] 7 = { engine := cancelledEngine, effects := [] } ∧
        (playAudio cancelledEngine true sampleText 8 9 10).outcome = PlayOutcome.resolved ∧
        (playAudio cancelledEngine true sampleText 8 9 10).engine.isPlaying =
          cancelledEngine.isPlaying ∧
        (playAudio cancelledEngine true sampleText 8 9 10).engine.currentAudio =
          cancelledEngine.currentAudio ∧
        (playAudio cancelledEngine true sampleText 8 9 10).engine.currentAudioUrl =
          cancelledEngine.currentAudioUrl ∧
        (playAudio cancelledEngine true sampleText 8 9 10).engine.currentAudioResolve =
          cancelledEngine.currentAudioResolve ∧
        ∀ fx ∈ (playAudio cancelledEngine true sampleText 8 9 10).effects,
          fx = EngineEffect.createAudioContext) :=
  ⟨rfl,
    no_side_effect_after_stop sampleCollaborators cancelledEngine samplePlayback 1000 6
      [128, 64] true sampleText 8 9 10 rfl⟩

/-! ## Theorems: loading the configuration -/

/-- C19: when the fetch rejects or the response is not OK, `loadExpressionConfig`
returns normally (the error is caught) and leaves `expressionConfig` equal to
the built-in default, the other fields untouched; the default has exactly the
six keys 开心, 生气, 难过, 惊讶, 害羞, 俏皮, each bound to the empty list. -/
theorem loadExpressionConfig_failure_default (s : LoaderState) (modelUrl : Option JSString)
    (status : Nat) :
    loadExpressionConfig s modelUrl FetchOutcome.networkError =
        { s with expressionConfig := some createDefaultExpressionConfig } ∧
      loadExpressionConfig s modelUrl (FetchOutcome.httpError status) =
        { s with expressionConfig := some createDefaultExpressionConfig } ∧
      createDefaultExpressionConfig.map Prod.fst = reservedLabels ∧
      ∀ entry ∈ createDefaultExpressionConfig, entry.2 = [] := by
  refine ⟨rfl, rfl, rfl, ?_⟩
  intro entry hentry
  simp only [createDefaultExpressionConfig, List.mem_cons, List.mem_singleton,
    List.not_mem_nil, or_false] at hentry
  rcases hentry with h | h | h | h | h | h <;> rw [h]

/-! ## Theorems: unbinding -/

theorem findIndex_some {p : JSString → Bool} {files : List JSString} {index : Nat}
    (h : findIndex p files = some index) :
    ∃ file, files[index]? = some file ∧ p file = true ∧
      ∀ j f, j < index → files[j]? = some f → p f = false := by
  induction files generalizing index with
  | nil => simp [findIndex] at h
  | cons a rest ih =>
    simp only [findIndex] at h
    split at h
    · rename_i hp
      simp only [Option.some.injEq] at h
      subst h
      exact ⟨a, by simp, hp, fun j f hj _ => by omega⟩
    · rename_i hp
      simp only [Option.map_eq_some'] at h
      obtain ⟨i, hi, rfl⟩ := h
      obtain ⟨file, h1, h2, h3⟩ := ih hi
      refine ⟨file, by simpa using h1, h2, ?_⟩
      intro j f hj hf
      cases j with
      | zero =>
        simp only [List.getElem?_cons_zero, Option.some.injEq] at hf
        subst hf
        simpa using hp
      | succ j =>
        simp only [List.getElem?_cons_succ] at hf
        exact h3 j f (by omega) hf

theorem findIndex_isSome_of_mem {p : JSString → Bool} {files : List JSString} {file : JSString}
    (hmem : file ∈ files) (hp : p file = true) : ∃ index, findIndex p files = some index := by
  induction files with
  | nil => simp at hmem
  | cons a rest ih =>
    simp only [findIndex]
    split
    · exact ⟨0, rfl⟩
    · rename_i hpa
      rcases List.mem_cons.mp hmem with rfl | hmem
      · exact absurd hp hpa
      · obtain ⟨i, hi⟩ := ih hmem
        exact ⟨i + 1, by simp [hi]⟩

/-- C21 (failing input): `开心` is bound to `happy2` and then to `happy`, so the
path `expressions/happy.exp3.json` is among the candidates; yet
`removeExpressionFromEmotion("开心", "happy")` removes `expressions/happy2.exp3.json`,
the first candidate that contains the name, keeps the path, requests a save and
emits `EXPRESSION_UNBOUND` for `happy`, which stays bound. -/
theorem removeExpressionFromEmotion_removes_other :
    configGet twoHappyMapper.expressionConfig (utf16 "开心") =
        some (ConfigValue.files
          [utf16 "expressions/happy2.exp3.json", utf16 "expressions/happy.exp3.json"]) ∧
      utf16 "expressions/" ++ utf16 "happy" ++ utf16 ".exp3.json" ∈
        [utf16 "expressions/happy2.exp3.json", utf16 "expressions/happy.exp3.json"] ∧
      removeExpressionFromEmotion twoHappyMapper (utf16 "开心") (utf16 "happy") =
        { result := CallResult.returned true
          mapper :=
            { expressionConfig := some [(utf16 "开心", [utf16 "expressions/happy.exp3.json"])]
              defaultExpression := utf16 "表情1" }
          effects :=
            [ConfigEffect.saveExpressionConfig
               [(utf16 "开心", [utf16 "expressions/happy.exp3.json"])],
             ConfigEffect.expressionUnbound (utf16 "开心") (utf16 "happy")] } := by
  decide

/-- What `removeExpressionFromEmotion(e, x)` does when the path
`expressions/<x>.exp3.json` is among the candidates of the key `e`: it returns
`true`, requests a save, emits `EXPRESSION_UNBOUND` and removes exactly one
element of the candidate list, the first, in list order, that equals the path
or contains `x` as a substring. That element is the path when every candidate
that contains `x` is the path. -/
theorem removeExpressionFromEmotion_removes_first_match (m : Mapper) (cfg : ExpressionConfig)
    (emotion expressionName : JSString) (files : List JSString)
    (hcfg : m.expressionConfig = some cfg) (hfiles : cfg.lookup emotion = some files)
    (hmem : utf16 "expressions/" ++ expressionName ++ utf16 ".exp3.json" ∈ files) :
    ∃ index file, files[index]? = some file ∧
      (file = utf16 "expressions/" ++ expressionName ++ utf16 ".exp3.json" ∨
        includes file expressionName = true) ∧
      (∀ j f, j < index → files[j]? = some f →
        f ≠ utf16 "expressions/" ++ expressionName ++ utf16 ".exp3.json" ∧
          includes f expressionName = false) ∧
      removeExpressionFromEmotion m emotion expressionName =
        { result := CallResult.returned true
          mapper :=
            { expressionConfig := some (configSet cfg emotion (files.eraseIdx index))
              defaultExpression := m.defaultExpression }
          effects :=
            [ConfigEffect.saveExpressionConfig (configSet cfg emotion (files.eraseIdx index)),
             ConfigEffect.expressionUnbound emotion expressionName] } ∧
      ((∀ f ∈ files, includes f expressionName = true →
          f = utf16 "expressions/" ++ expressionName ++ utf16 ".exp3.json") →
        file = utf16 "expressions/" ++ expressionName ++ utf16 ".exp3.json") := by
  obtain ⟨index, hidx⟩ := findIndex_isSome_of_mem
    (p := fun file =>
      decide (file = utf16 "expressions/" ++ expressionName ++ utf16 ".exp3.json") ||
        includes file expressionName) hmem (by simp)
  obtain ⟨file, hget, hp, hbefore⟩ := findIndex_some hidx
  have hmatch : file = utf16 "expressions/" ++ expressionName ++ utf16 ".exp3.json" ∨
      includes file expressionName = true := by
    simpa using hp
  refine ⟨index, file, hget, hmatch, ?_, ?_, ?_⟩
  · intro j f hj hf
    have := hbefore j f hj hf
    simpa using this
  · unfold removeExpressionFromEmotion
    rw [hcfg]
    simp only
    rw [configGet_of_lookup cfg emotion files hfiles]
    simp only
    rw [hidx]
  · intro hall
    rcases hmatch with h | h
    · exact h
    · obtain ⟨hlt, hfile⟩ := List.getElem?_eq_some.mp hget
      exact hall file (by rw [← hfile]; exact List.getElem_mem _) h

/-! ## Theorems: stripping twice -/

theorem findMatch_none_iff (i : Nat) (s : JSString) : findMatch i s = none ↔ NoMatch s := by
  induction s generalizing i with
  | nil => simp [findMatch, NoMatch]
  | cons c cs ih =>
    simp only [findMatch, NoMatch]
    cases hm : matchTagHere (c :: cs) with
    | none => simpa using ih (i + 1)
    | some label => simp

theorem matchTagHere_lt_none {cs : JSString} (h : matchTagHere (chLt :: cs) = none)
    (hgt : chGt ∈ cs) : ∃ cs', cs = chGt :: cs' := by
  simp only [matchTagHere, if_true] at h
  rw [List.span_eq_take_drop] at h
  split at h
  · rename_i l heq
    simp only [Prod.mk.injEq] at heq
    have hall := List.dropWhile_eq_nil_iff.mp heq.2
    have := hall chGt hgt
    simp at this
  · rename_i l g r heq
    simp only [Prod.mk.injEq] at heq
    obtain ⟨h1, -⟩ := heq
    split at h
    · rename_i hemp
      cases cs with
      | nil => simp at hgt
      | cons a cs' =>
        have hl : l = [] := by simpa using hemp
        rw [hl] at h1
        by_cases ha : a = chGt
        · exact ⟨cs', by rw [ha]⟩
        · have hpa : (a != chGt) = true := by simpa using ha
          simp [List.takeWhile_cons, hpa] at h1
    · simp at h

theorem findMatch_some_closed {s label : JSString} {i idx : Nat}
    (h : findMatch i s = some (idx, label)) :
    ∃ pre rest, s = pre ++ chLt :: (label ++ chGt :: rest) ∧ idx = i + pre.length ∧
      Closed pre := by
  induction s generalizing i with
  | nil => simp [findMatch] at h
  | cons c cs ih =>
    simp only [findMatch] at h
    split at h
    · rename_i l hm
      simp only [Option.some.injEq, Prod.mk.injEq] at h
      obtain ⟨h1, h2⟩ := h
      subst h1 h2
      obtain ⟨rest, hs, -, -⟩ := matchTagHere_some hm
      exact ⟨[], rest, by simpa using hs, by simp, trivial⟩
    · rename_i hm
      obtain ⟨pre, rest, hs, hidx, hcl⟩ := ih h
      refine ⟨c :: pre, rest, by simp [hs], by simp only [List.length_cons]; omega, ?_, hcl⟩
      intro hc
      subst hc
      have hgt : chGt ∈ cs := by rw [hs]; simp
      obtain ⟨cs', hcs⟩ := matchTagHere_lt_none hm hgt
      cases pre with
      | nil =>
        rw [hcs] at hs
        simp only [List.nil_append, List.cons.injEq] at hs
        exact absurd hs.1 (by decide)
      | cons p pre' =>
        rw [hcs] at hs
        simp only [List.cons_append, List.cons.injEq] at hs
        exact ⟨pre', by rw [← hs.1]⟩

theorem matchTagHere_lt_gt (s : JSString) : matchTagHere (chLt :: chGt :: s) = none := by
  simp [matchTagHere, List.span_eq_take_drop, chGt]

theorem matchTagHere_of_ne {c : Nat} (s : JSString) (h : c ≠ chLt) :
    matchTagHere (c :: s) = none := by
  simp [matchTagHere, h]

theorem noMatch_append {pre s : JSString} (hpre : Closed pre) (hs : NoMatch s) :
    NoMatch (pre ++ s) := by
  induction pre with
  | nil => simpa using hs
  | cons c rest ih =>
    obtain ⟨h1, h2⟩ := hpre
    rw [List.cons_append]
    refine ⟨?_, ih h2⟩
    by_cases hc : c = chLt
    · obtain ⟨rest', hrest⟩ := h1 hc
      rw [hc, hrest, List.cons_append]
      exact matchTagHere_lt_gt _
    · exact matchTagHere_of_ne _ hc

/-- With enough iterations, what the parse loop from `lastIndex = k` leaves of
the text from index `k` on contains no match. -/
theorem keepOutside_parseLoop_noMatch (text : JSString) (fuel k : Nat) (hk : k ≤ text.length)
    (hfuel : text.length < fuel + k) :
    NoMatch (keepOutside (parseLoop text fuel k) k (text.drop k)) := by
  induction fuel generalizing k with
  | zero => omega
  | succ n ih =>
    cases hex : exec text k with
    | none =>
      have hloop : parseLoop text (n + 1) k = [] := by simp [parseLoop, hex]
      rw [hloop, keepOutside_none _ _ _ (fun j _ _ => by simp [inTag])]
      unfold exec at hex
      rw [if_neg (by omega)] at hex
      exact (findMatch_none_iff _ _).mp hex
    | some found =>
      obtain ⟨idx, label⟩ := found
      obtain ⟨h1, h2, -⟩ := exec_some hex
      have hsp := tagsFrom_spansFrom (parseLoop_tagsFrom text (n + 1) k) hk
      have hloop : parseLoop text (n + 1) k =
          { emotion := label
            startIndex := idx
            endIndex := idx + (label.length + 2)
            fullTag := substring text idx (idx + (label.length + 2)) }
            :: parseLoop text n (idx + (label.length + 2)) := by
        simp [parseLoop, hex]
      rw [hloop] at hsp ⊢
      rw [keepOutside_cons_spans hsp (text.drop k) (by simp)]
      simp only
      have hdrop : (text.drop k).drop (idx + (label.length + 2) - k) =
          text.drop (idx + (label.length + 2)) := by
        rw [List.drop_drop]
        congr 1
        omega
      rw [hdrop]
      unfold exec at hex
      rw [if_neg (by omega)] at hex
      obtain ⟨pre, rest, hs, hidx, hcl⟩ := findMatch_some_closed hex
      have htake : (text.drop k).take (idx - k) = pre := by
        rw [hs]
        exact List.take_left' (by omega)
      rw [htake]
      exact noMatch_append hcl (ih _ h2 (by omega))

theorem parse_of_noMatch {s : JSString} (h : NoMatch s) : parseEmotionTagsWithPosition s = [] := by
  have hex : exec s 0 = none := by
    unfold exec
    rw [if_neg (by omega)]
    exact (findMatch_none_iff _ _).mpr (by simpa using h)
  simp [parseEmotionTagsWithPosition, parseLoop, hex]

theorem stripped_noMatch (m : Mapper) (text : JSString) :
    NoMatch (prepareTextForTTS m text).text := by
  rw [text_eq_keepOutside]
  have := keepOutside_parseLoop_noMatch text (text.length + 1) 0 (Nat.zero_le _) (by omega)
  simpa [parseEmotionTagsWithPosition] using this

/-- C22: stripping is idempotent. The text returned by `prepareTextForTTS`
contains no tag: no match of the tag pattern starts at any of its indices and
`parseEmotionTagsWithPosition` of it is empty; so `prepareTextForTTS` applied to
it, under any configuration, returns it unchanged with an empty marker list. -/
theorem prepareTextForTTS_idempotent (m m2 : Mapper) (text : JSString) :
    NoMatch (prepareTextForTTS m text).text ∧
      parseEmotionTagsWithPosition (prepareTextForTTS m text).text = [] ∧
      prepareTextForTTS m2 (prepareTextForTTS m text).text =
        { text := (prepareTextForTTS m text).text, emotionMarkers := [] } := by
  have h1 := stripped_noMatch m text
  have h2 := parse_of_noMatch h1
  refine ⟨h1, h2, ?_⟩
  unfold prepareTextForTTS at h2 ⊢
  simp only at h2 ⊢
  rw [h2]
  simp

end EmotionExpressionMapper
